import Mathlib

/-!
Verification of the transaction aggregation, normalization and
pattern-detection engine of the my-finance-ai repository.

Modelling conventions, used throughout:

* Python `datetime` values are modelled as seconds since the Unix epoch
  (`Nat`); `timedelta(days = d)` is `d * 86400` seconds and
  `replace(hour=0, minute=0, second=0, microsecond=0)` is flooring to a
  multiple of 86400 (`midnight`).  `strftime "%a %d"` day keys are modelled
  as the pair (weekday index, day of month) computed by the standard civil
  calendar algorithm (`day_key`).
* Python floats are modelled as rational numbers (`ℚ`); monetary amounts in
  this code base stay within exact decimal arithmetic.
* A fallible call (an HTTP request or SDK call that may raise) is modelled
  as an `Except String` value, the `String` being `str(e)` of the raised
  exception; Python substring tests such as `"429" in str(e)` are modelled
  by `contains_sub`.
* Python `sorted` is a stable sort and is modelled by `List.insertionSort`
  (also a stable sort, hence extensionally identical on every input).
-/

/-- Boolean substring test on character lists: `needle` occurs inside the
list (Python's `needle in hay`). -/
def chars_contain (needle : List Char) : List Char → Bool
  | [] => needle.isEmpty
  | c :: rest => needle.isPrefixOf (c :: rest) || chars_contain needle rest

/-- Python's `needle in hay` substring containment on strings. -/
def contains_sub (needle hay : String) : Bool :=
  chars_contain needle.toList hay.toList

/-- Python's `str.lower()`, on the character list of a string. -/
def py_lower (cs : List Char) : List Char := cs.map Char.toLower

/-- Python's `str.strip()`, on the character list of a string: drop
leading and trailing whitespace. -/
def py_strip (cs : List Char) : List Char :=
  ((cs.dropWhile Char.isWhitespace).reverse.dropWhile Char.isWhitespace).reverse

/-- Floor a Unix timestamp to the start of its (epoch-aligned) day:
`datetime.replace(hour=0, minute=0, second=0, microsecond=0)`. -/
def midnight (t : Nat) : Nat := t - t % 86400

/-- Civil date (year, month, day) of a day count since 1970-01-01, by the
standard Gregorian calendar algorithm (valid for non-negative day counts,
i.e. dates from 1970 on, which covers every timestamp in this system). -/
def civil_from_days (z : Nat) : Nat × Nat × Nat :=
  let z' := z + 719468
  let era := z' / 146097
  let doe := z' % 146097
  let yoe := (doe - doe / 1460 + doe / 36524 - doe / 146096) / 365
  let doy := doe - (365 * yoe + yoe / 4 - yoe / 100)
  let mp := (5 * doy + 2) / 153
  let d := doy - (153 * mp + 2) / 5 + 1
  let m := if mp < 10 then mp + 3 else mp - 9
  (yoe + era * 400 + (if m ≤ 2 then 1 else 0), m, d)

/-- The `strftime "%a %d"` key used by the daily-spending breakdown:
the pair (weekday index, day of month) of a timestamp.  1970-01-01 was a
Thursday, hence the offset 4. -/
def day_key (t : Nat) : Nat × Nat :=
  ((t / 86400 + 4) % 7, (civil_from_days (t / 86400)).2.2)

/-- Canonical normalized transaction, as produced by the source adapters
(`weekly_report.py` consumes dictionaries with exactly these keys). -/
structure Transaction where
  date : Nat
  description : String
  amount : ℚ
  currency : String
  mcc : Option String
  category : String
  source : String
  account_type : String
  is_expense : Bool
deriving DecidableEq, Repr

/-- Timestamp-descending comparison used by every `sorted(..., key=lambda
x: x["date"], reverse=True)` in the code base (stable descending sort). -/
def date_desc (a b : Transaction) : Prop := b.date ≤ a.date

instance : DecidableRel date_desc := fun a b =>
  inferInstanceAs (Decidable (b.date ≤ a.date))

instance : IsTotal Transaction date_desc := ⟨fun a b => Nat.le_total b.date a.date⟩

instance : IsTrans Transaction date_desc :=
  ⟨fun _ _ _ h h' => Nat.le_trans h' h⟩

/-! ## `mcp_server.py`: the rate-limit retry policy (`rate_limit_retry`) -/

/-- The rate-limit test of `rate_limit_retry`:
`"429" in error_str or "Too Many Requests" in error_str`. -/
def is_rate_limit_error (e : String) : Bool :=
  contains_sub "429" e || contains_sub "Too Many Requests" e

/-- One run of the `for attempt in range(retries)` loop of the
`rate_limit_retry` wrapper in `mcp_server.py`.  The wrapped operation is
`f`, indexed by attempt number; the result records the returned value or
propagated error, the number of invocations of `f`, and the list of
`time.sleep` durations in order.  The structural fuel argument is the
number of loop iterations left (`retries - attempt`); when it reaches 0 the
loop is over and the trailing `return func(*args, **kwargs)` runs, outside
any try/except. -/
def rate_limit_retry_go {α : Type} (f : Nat → Except String α) (retries : Nat) :
    Nat → Nat → Nat → Except String α × Nat × List Nat
  | 0, attempt, _delay => (f attempt, 1, [])
  | remaining + 1, attempt, delay =>
    match f attempt with
    | Except.ok a => (Except.ok a, 1, [])
    | Except.error e =>
      if is_rate_limit_error e && decide (attempt < retries - 1) then
        let r := rate_limit_retry_go f retries remaining (attempt + 1) (delay * 2)
        (r.1, r.2.1 + 1, delay :: r.2.2)
      else (Except.error e, 1, [])

/-- The `rate_limit_retry(retries, initial_delay)` decorator applied to an
operation `f`: runs the retry loop starting at attempt 0 with the initial
delay. -/
def rate_limit_retry {α : Type} (f : Nat → Except String α)
    (retries initial_delay : Nat) : Except String α × Nat × List Nat :=
  rate_limit_retry_go f retries retries 0 initial_delay

/-! ## `wise/client.py`: amount parsing and the keyword categorizer -/

/-- Python's argument-less `str.split()`: split on whitespace runs,
discarding empty tokens. -/
def py_split_ws (cs : List Char) : List (List Char) :=
  (cs.splitOnP Char.isWhitespace).filter fun t => !t.isEmpty

/-- The token list `amount_str.replace(",", "").strip().split()` computed
by `parse_amount_string` (deleting every comma, stripping, splitting on
whitespace). -/
def amount_parts (s : String) : List (List Char) :=
  py_split_ws (py_strip (s.toList.filter fun c => c ≠ ','))

/-- Numeric value of a list of decimal digit characters. -/
def digits_to_nat (ds : List Char) : Nat :=
  ds.foldl (fun n c => n * 10 + (c.toNat - 48)) 0

/-- Exponent suffix of a Python float literal: optional sign then at least
one digit, consuming the whole remainder. -/
def parse_float_exp (mant : ℚ) (cs : List Char) : Option ℚ :=
  let p := match cs with
    | '+' :: r => ((1 : Int), r)
    | '-' :: r => ((-1 : Int), r)
    | _ => ((1 : Int), cs)
  let ds := p.2.takeWhile fun c => c.isDigit
  if ds.isEmpty || !(p.2.dropWhile fun c => c.isDigit).isEmpty then none
  else some (mant * (10 : ℚ) ^ (p.1 * (digits_to_nat ds : Int)))

/-- Python's `float(s)` conversion, modelled for finite decimal literals:
optional sign, integer and/or fractional digits, optional exponent.
(Special forms such as `inf`, `nan` or underscore separators are not
modelled; they never reach this code from a bank API.)  `none` models the
`ValueError` caught by `parse_amount_string`. -/
def parse_float (s : List Char) : Option ℚ :=
  let p := match s with
    | '+' :: rest => ((1 : ℚ), rest)
    | '-' :: rest => ((-1 : ℚ), rest)
    | cs => ((1 : ℚ), cs)
  let int_part := p.2.takeWhile fun c => c.isDigit
  let after_int := p.2.dropWhile fun c => c.isDigit
  match after_int with
  | [] => if int_part.isEmpty then none else some (p.1 * digits_to_nat int_part)
  | '.' :: rest =>
    let frac_part := rest.takeWhile fun c => c.isDigit
    let after_frac := rest.dropWhile fun c => c.isDigit
    if int_part.isEmpty && frac_part.isEmpty then none
    else
      let mant := p.1 * ((digits_to_nat int_part : ℚ) +
        (digits_to_nat frac_part : ℚ) / (10 : ℚ) ^ frac_part.length)
      match after_frac with
      | [] => some mant
      | 'e' :: erest => parse_float_exp mant erest
      | 'E' :: erest => parse_float_exp mant erest
      | _ => none
  | 'e' :: erest =>
    if int_part.isEmpty then none
    else parse_float_exp (p.1 * digits_to_nat int_part) erest
  | 'E' :: erest =>
    if int_part.isEmpty then none
    else parse_float_exp (p.1 * digits_to_nat int_part) erest
  | _ => none

/-- `parse_amount_string` from `wise/client.py`: parse a string like
"1.40 EUR" or "3,300 EUR" into (amount, currency), falling back to
(0.0, "EUR") on an empty string, fewer than two tokens, or a first token
that `float` rejects. -/
def parse_amount_string (s : String) : ℚ × String :=
  if s = "" then (0, "EUR")
  else
    match amount_parts s with
    | p₁ :: p₂ :: _ =>
      match parse_float p₁ with
      | some a => (a, p₂.asString)
      | none => (0, "EUR")
    | _ => (0, "EUR")

/-- The ordered keyword rules of `WiseClient._categorize_merchant`, exactly
as authored. -/
def categorize_rules : List (List String × String) :=
  [(["uber", "bolt", "lyft", "taxi", "cabify"], "Transport"),
   (["lidl", "aldi", "pingo doce", "continente", "mercado", "supermarket",
     "grocery"], "Groceries"),
   (["restaurant", "cafe", "coffee", "starbucks", "mcdonald", "burger",
     "pizza", "sushi"], "Restaurants"),
   (["patreon", "netflix", "spotify", "youtube", "apple", "google",
     "amazon prime"], "Subscriptions"),
   (["pharmacy", "farmacia", "gym", "yoga", "fitness", "health"],
     "Health & Fitness"),
   (["amazon", "ebay", "aliexpress", "shop", "store", "market"], "Shopping")]

/-- Python's `x in merchant_lower` keyword test of the categorizer. -/
def kw_in (x : String) (m : List Char) : Bool := chars_contain x.toList m

/-- `WiseClient._categorize_merchant`: lowercase the merchant name and run
the keyword rules as an if-chain in authored order, with the generic
fallback "Card Payment". -/
def categorize_merchant (merchant : String) : String :=
  let m := py_lower merchant.toList
  if (["uber", "bolt", "lyft", "taxi", "cabify"]).any
      (fun x => kw_in x m) then "Transport"
  else if (["lidl", "aldi", "pingo doce", "continente", "mercado",
      "supermarket", "grocery"]).any (fun x => kw_in x m) then "Groceries"
  else if (["restaurant", "cafe", "coffee", "starbucks", "mcdonald",
      "burger", "pizza", "sushi"]).any (fun x => kw_in x m) then
    "Restaurants"
  else if (["patreon", "netflix", "spotify", "youtube", "apple", "google",
      "amazon prime"]).any (fun x => kw_in x m) then "Subscriptions"
  else if (["pharmacy", "farmacia", "gym", "yoga", "fitness", "health"]).any
      (fun x => kw_in x m) then "Health & Fitness"
  else if (["amazon", "ebay", "aliexpress", "shop", "store", "market"]).any
      (fun x => kw_in x m) then "Shopping"
  else "Card Payment"

/-- The claim's reading of the categorizer (for the refinement theorem):
the ordered rule list is scanned for the first rule one of whose keywords
occurs in the lowercased description, and its category returned; no match
falls back to the generic label. -/
def first_matching_rule (merchant : String) : String :=
  ((categorize_rules.find? fun rule =>
    rule.1.any fun x => kw_in x (py_lower merchant.toList)).map
      fun rule => rule.2).getD "Card Payment"

/-! ## `monobank/client.py` -/

/-- `CURRENCY_MAP` from `monobank/client.py`. -/
def currency_map : List (Nat × String) :=
  [(980, "UAH"), (840, "USD"), (978, "EUR"), (826, "GBP"), (985, "PLN")]

/-- `MCC_CATEGORIES` from `monobank/client.py`. -/
def mcc_categories : List (String × String) :=
  [("4111", "Transportation"), ("4112", "Railways"), ("4121", "Taxi & Rideshare"),
   ("4131", "Bus Lines"), ("4784", "Tolls & Fees"), ("4789", "Transportation Services"),
   ("4829", "Money Transfer"), ("5411", "Groceries"), ("5412", "Convenience Stores"),
   ("5422", "Meat & Seafood"), ("5441", "Candy & Confectionery"), ("5451", "Dairy Stores"),
   ("5462", "Bakeries"), ("5499", "Food Stores"), ("5541", "Gas Stations"), ("5542", "Fuel"),
   ("5651", "Clothing"), ("5691", "Clothing Stores"), ("5812", "Restaurants"),
   ("5813", "Bars & Nightclubs"), ("5814", "Fast Food"), ("5815", "Digital Goods"),
   ("5816", "Digital Games"), ("5817", "Digital Services"), ("5818", "Digital Purchases"),
   ("5912", "Pharmacy"), ("5921", "Alcohol"), ("5941", "Sporting Goods"),
   ("5942", "Bookstores"), ("5943", "Office Supplies"), ("5944", "Jewelry"),
   ("5945", "Toys & Games"), ("5977", "Cosmetics"), ("5999", "Retail"),
   ("6010", "ATM Cash"), ("6011", "Cash Withdrawal"), ("6012", "Financial Services"),
   ("6051", "Currency Exchange"), ("6211", "Investments"), ("6300", "Insurance"),
   ("7011", "Hotels"), ("7230", "Beauty Salons"), ("7299", "Other Services"),
   ("7372", "Software"), ("7375", "Information Services"), ("7379", "Computer Services"),
   ("7392", "Consulting"), ("7399", "Business Services"), ("7512", "Car Rental"),
   ("7523", "Parking"), ("7832", "Cinema"), ("7941", "Sports Events"),
   ("7999", "Recreation Services"), ("8011", "Medical"), ("8021", "Dentist"),
   ("8099", "Health Services"), ("8211", "Schools"), ("8299", "Education"),
   ("8398", "Charity"), ("9311", "Tax Payments"), ("9399", "Government Services")]

/-- `get_mcc_category`: MCC code to human-readable category, with the
explicit fallback label embedding the unrecognized code. -/
def get_mcc_category (mcc : Nat) : String :=
  ((mcc_categories.lookup (toString mcc)).getD ("Other (" ++ toString mcc ++ ")"))

/-- A raw statement item as returned by the Monobank statement API:
Unix time, description, amount in minor units (signed), MCC code.
The dict-get defaults of the source (`tx.get("amount", 0)` etc.) are
applied at construction of this record. -/
structure MonoStatementTx where
  time : Nat
  description : String
  amount : Int
  mcc : Nat
deriving DecidableEq, Repr

/-- The chunking while-loop of `MonobankClient.get_transactions`.  `fetch`
models `self.client.get_statements(account_id, start, end)` for the fixed
account: it returns the raw items of a sub-window or raises (an `error`
whose string is `str(e)`).  The result pairs the overall outcome (the
concatenated items, or the propagated exception) with the list of
sub-windows actually requested, in order.  A chunk error containing "429"
(rate limit) or "400" (invalid range) stops the loop and the data
accumulated so far is returned; any other error propagates, discarding the
accumulated data. -/
def get_tx_loop {α : Type} (fetch : Nat × Nat → Except String (List α))
    (now : Nat) (current_start : Nat) : Except String (List α) × List (Nat × Nat) :=
  if current_start < now then
    let current_end := min (current_start + 30 * 86400) now
    match fetch (current_start, current_end) with
    | Except.ok txs =>
      let r := get_tx_loop fetch now current_end
      (r.1.map fun rest => txs ++ rest, (current_start, current_end) :: r.2)
    | Except.error e =>
      if contains_sub "429" e then (Except.ok [], [(current_start, current_end)])
      else if contains_sub "400" e then (Except.ok [], [(current_start, current_end)])
      else (Except.error e, [(current_start, current_end)])
  else (Except.ok [], [])
termination_by now - current_start
decreasing_by
  simp only [Nat.min_def]
  split <;> omega

/-- `MonobankClient.get_transactions(account_id, days)`: chunk the window
`[now - days, now]` into 30-day sub-windows and fetch each in turn. -/
def get_transactions {α : Type} (fetch : Nat × Nat → Except String (List α))
    (now : Nat) (days : Nat) : Except String (List α) × List (Nat × Nat) :=
  get_tx_loop fetch now (now - days * 86400)

/-- Python's `round` on a rational: round half to even (banker's
rounding). -/
def py_round (q : ℚ) : ℤ :=
  let n := ⌊q⌋
  let r := q - n
  if r < 1 / 2 then n
  else if 1 / 2 < r then n + 1
  else if n % 2 = 0 then n else n + 1

/-- Python's `round(x, 1)`: round to one decimal place, half to even. -/
def round1 (q : ℚ) : ℚ := (py_round (q * 10) : ℚ) / 10

/-- One detected recurring-payment group, as built by
`detect_recurring_payments`.  `last_transaction` is kept as the raw Unix
timestamp; the source renders it as an ISO-8601 string
(`datetime.fromtimestamp(times[-1]).isoformat()`), an injective
presentation step. -/
structure RecurringEntry where
  description : String
  amount : ℚ
  count : Nat
  avg_interval_days : ℚ
  last_transaction : Nat
deriving DecidableEq, Repr

/-- Count-descending comparison of `sorted(recurring, key=lambda x:
x['count'], reverse=True)`. -/
def count_desc (a b : RecurringEntry) : Prop := b.count ≤ a.count

instance : DecidableRel count_desc := fun a b =>
  inferInstanceAs (Decidable (b.count ≤ a.count))

instance : IsTotal RecurringEntry count_desc := ⟨fun a b => Nat.le_total b.count a.count⟩

instance : IsTrans RecurringEntry count_desc :=
  ⟨fun _ _ _ h h' => Nat.le_trans h' h⟩

/-- The grouping signature test of `detect_recurring_payments`: the
transaction is an expense (`amount < 0`), its absolute major-unit amount is
positive, and its (trimmed description, absolute amount) pair equals the
given key. -/
def grouped_as (k : List Char × ℚ) (tx : MonoStatementTx) : Bool :=
  decide (tx.amount < 0) && decide (0 < ((tx.amount.natAbs : ℚ) / 100))
    && decide ((py_strip tx.description.toList, (tx.amount.natAbs : ℚ) / 100) = k)

/-- `groups[key].append(tx)` on a `defaultdict(list)` whose key order is
first-occurrence order: update the existing bucket or append a new one at
the end. -/
def add_to_group (gs : List ((List Char × ℚ) × List MonoStatementTx))
    (key : List Char × ℚ) (tx : MonoStatementTx) :
    List ((List Char × ℚ) × List MonoStatementTx) :=
  match gs with
  | [] => [(key, [tx])]
  | (k, txs) :: rest =>
    if k = key then (k, txs ++ [tx]) :: rest
    else (k, txs) :: add_to_group rest key tx

/-- Body of the grouping loop of `detect_recurring_payments`: an expense
transaction (`amount < 0`) with positive absolute major-unit amount is
appended to the bucket of its (trimmed description, absolute amount)
signature; every other transaction leaves the buckets unchanged. -/
def build_groups_step (gs : List ((List Char × ℚ) × List MonoStatementTx))
    (tx : MonoStatementTx) : List ((List Char × ℚ) × List MonoStatementTx) :=
  let amount := tx.amount
  let desc := py_strip tx.description.toList
  if amount < 0 then
    let amount_abs : ℚ := (amount.natAbs : ℚ) / 100
    if 0 < amount_abs then add_to_group gs (desc, amount_abs) tx else gs
  else gs

/-- The grouping pass of `detect_recurring_payments`: bucket the expense
transactions by (trimmed description, absolute amount in major units). -/
def build_groups (transactions : List MonoStatementTx) :
    List ((List Char × ℚ) × List MonoStatementTx) :=
  transactions.foldl build_groups_step []

/-- The entry built for one candidate group: occurrence count, average
interval between ascending-sorted occurrence times (in days, rounded to one
decimal), and the latest occurrence time. -/
def mk_recurring_entry (p : (List Char × ℚ) × List MonoStatementTx) : RecurringEntry :=
  let times := (p.2.map fun tx => tx.time).insertionSort (· ≤ ·)
  let intervals := List.zipWith (fun later earlier => later - earlier) times.tail times
  let avg_interval_sec : ℚ :=
    if intervals.length = 0 then 0
    else ((intervals.foldl (· + ·) 0 : Nat) : ℚ) / intervals.length
  { description := p.1.1.asString
    amount := p.1.2
    count := p.2.length
    avg_interval_days := round1 (avg_interval_sec / (24 * 3600))
    last_transaction := times.getLast?.getD 0 }

/-- `MonobankClient.detect_recurring_payments`, applied to an already
fetched statement list (the source first obtains it via
`get_transactions`): group expenses by (trimmed description, absolute
amount), keep groups with more than one member, and sort the resulting
entries by occurrence count descending (stably). -/
def detect_recurring_payments (transactions : List MonoStatementTx) :
    List RecurringEntry :=
  let groups := build_groups transactions
  let recurring := groups.foldl
    (fun acc p => if 1 < p.2.length then acc ++ [mk_recurring_entry p] else acc) []
  recurring.insertionSort count_desc

/-- A Monobank account as listed by `/personal/client-info`. -/
structure MonoAccount where
  id : String
  currency_code : Nat
  acc_type : String
  balance : Int
deriving DecidableEq, Repr

/-- The normalization of one raw statement item inside
`MonobankClient.get_all_transactions`. -/
def normalize_mono_tx (currency acc_type : String) (tx : MonoStatementTx) :
    Transaction :=
  let amount : ℚ := (tx.amount : ℚ) / 100
  { date := tx.time
    description := tx.description
    amount := amount
    currency := currency
    mcc := some (toString tx.mcc)
    category := get_mcc_category tx.mcc
    source := "Monobank"
    account_type := acc_type
    is_expense := decide (amount < 0) }

/-- The per-statement loop of `get_all_transactions`: drop items outside
the window `[start_date, now]`, normalize the rest. -/
def process_mono_statement (currency acc_type : String) (start_date now : Nat)
    (txs : List MonoStatementTx) : List Transaction :=
  txs.filterMap fun tx =>
    if tx.time < start_date || now < tx.time then none
    else some (normalize_mono_tx currency acc_type tx)

/-- The transactions contributed by one account in the account loop of
`get_all_transactions`: zero-balance FOP (business) accounts are skipped,
and any statement-fetch outcome other than a JSON list (rate limit with
retries exhausted, HTTP error, malformed body) contributes nothing — every
such path leaves the retry loop via `break` without appending. -/
def mono_account_txs (statements : String → Except String (List MonoStatementTx))
    (start_date now : Nat) (acc : MonoAccount) : List Transaction :=
  let currency := (currency_map.lookup acc.currency_code).getD
    (toString acc.currency_code)
  if acc.acc_type = "fop" && acc.balance = 0 then []
  else
    match statements acc.id with
    | Except.ok txs => process_mono_statement currency acc.acc_type start_date now txs
    | Except.error _ => []

/-- `MonobankClient.get_all_transactions(days)`: fan out over all accounts
of the client-info response, normalize each account's statement over the
window `[midnight(now - days), now]`, and sort everything by date
descending.  `statements` models the per-account statement request. -/
def get_all_transactions (accounts : List MonoAccount)
    (statements : String → Except String (List MonoStatementTx))
    (now : Nat) (days : Nat) : List Transaction :=
  let start_date := midnight (now - days * 86400)
  let all := accounts.foldl
    (fun acc a => acc ++ mono_account_txs statements start_date now a) []
  all.insertionSort date_desc

/-! ## `wise/client.py`: transfers and card activities -/

/-- A raw Wise transfer record (`GET /transfers`).  `created` holds the
timestamp parsed by `datetime.strptime(created, "%Y-%m-%d %H:%M:%S")`, or
`none` when that parse raises (the source then skips the record).
`reference` and `details_reference` model `tx.get("reference", "")` and
`tx.get("details", {}).get("reference", "")`. -/
structure WiseTransfer where
  status : String
  created : Option Nat
  source_value : ℚ
  source_currency : String
  target_currency : String
  reference : String
  details_reference : String
  source_account : Option Nat
deriving DecidableEq, Repr

/-- The normalization of one accepted transfer record inside
`WiseClient.get_transfers`. -/
def normalize_wise_transfer (tx : WiseTransfer) (tx_date : Nat) : Transaction :=
  let reference := if tx.reference ≠ "" then tx.reference else tx.details_reference
  let is_incoming := tx.source_account = none
  let desc :=
    if tx.source_currency ≠ tx.target_currency then
      (if reference ≠ "" then reference else "Transfer") ++ " (" ++
        tx.source_currency ++ "→" ++ tx.target_currency ++ ")"
    else if reference ≠ "" then reference else "Bank Transfer"
  { date := tx_date
    description := desc
    amount := if is_incoming then tx.source_value else -tx.source_value
    currency := tx.source_currency
    mcc := none
    category := "Bank Transfer"
    source := "Wise"
    account_type := "transfer"
    is_expense := !is_incoming }

/-- `WiseClient.get_transfers(days)` applied to the raw response list:
keep transfers with a sent/converted status and a parseable creation time
inside the window `[midnight(now - days), now]`, normalize them, and sort
by date descending. -/
def get_transfers (transfers : List WiseTransfer) (now : Nat) (days : Nat) :
    List Transaction :=
  let start_date := midnight (now - days * 86400)
  let processed := transfers.filterMap fun tx =>
    if tx.status = "outgoing_payment_sent" || tx.status = "funds_converted" then
      match tx.created with
      | none => none
      | some tx_date =>
        if tx_date < start_date || now < tx_date then none
        else some (normalize_wise_transfer tx tx_date)
    else none
  processed.insertionSort date_desc

/-- Remainder of the input after a `<[^>]+>` tag match that begins with the
character following a literal `<`: at least one non-`>` character followed
by `>`.  Returns `none` when the regex cannot match at this position. -/
def after_tag : List Char → Option (List Char)
  | [] => none
  | c :: rest =>
    if c = '>' then none
    else
      let dropped := rest.dropWhile fun d => d ≠ '>'
      match dropped with
      | [] => none
      | _ :: rest' => some rest'

theorem after_tag_length {cs rest' : List Char} (h : after_tag cs = some rest') :
    rest'.length < cs.length := by
  match cs with
  | [] => simp [after_tag] at h
  | c :: rest =>
    simp only [after_tag] at h
    split at h
    · exact absurd h (by simp)
    · rcases hd : rest.dropWhile (fun d => d ≠ '>') with _ | ⟨d, dr⟩ <;>
        rw [hd] at h
      · exact absurd h (by simp)
      · have hsub : rest.dropWhile (fun d => d ≠ '>') <:+ rest :=
          List.dropWhile_suffix _
        have := hsub.length_le
        rw [hd] at this
        simp only [Option.some.injEq] at h
        subst h
        simp only [List.length_cons] at this ⊢
        omega

/-- `re.sub(r'<[^>]+>', '', title)`: delete every (non-overlapping,
leftmost-first) `<...>` tag. -/
def strip_tags (cs : List Char) : List Char :=
  match cs with
  | [] => []
  | c :: rest =>
    if h : c = '<' then
      match hm : after_tag rest with
      | some rest' => strip_tags rest'
      | none => c :: strip_tags rest
    else c :: strip_tags rest
termination_by cs.length
decreasing_by
  · exact Nat.lt_succ_of_lt (after_tag_length hm)
  · simp
  · simp

/-- A raw Wise activity record (`GET /profiles/{pid}/activities`).
`created_on` holds the timestamp parsed by `datetime.fromisoformat`, or
`none` when the parse raises (the source then skips the record). -/
structure WiseActivity where
  act_id : String
  act_type : String
  status : String
  created_on : Option Nat
  primary_amount : String
  secondary_amount : String
  title : String
deriving DecidableEq, Repr

/-- The (amount, currency) effectively used for a card activity: the parse
of `primaryAmount`, overridden by a positive parse of a non-empty
`secondaryAmount`. -/
def card_effective_amount (act : WiseActivity) : ℚ × String :=
  let p := parse_amount_string act.primary_amount
  if act.secondary_amount ≠ "" then
    let s := parse_amount_string act.secondary_amount
    if 0 < s.1 then s else p
  else p

/-- The normalization of one accepted card activity inside
`WiseClient.get_card_transactions`. -/
def normalize_wise_card (act : WiseActivity) (tx_date : Nat) : Transaction :=
  let ac := card_effective_amount act
  let title := (py_strip (strip_tags act.title.toList)).asString
  { date := tx_date
    description := title
    amount := -ac.1
    currency := ac.2
    mcc := none
    category := categorize_merchant title
    source := "Wise"
    account_type := "card"
    is_expense := true }

/-- The per-page activity loop of `WiseClient.get_card_transactions`:
deduplicate by activity id, keep completed/pending card payments, skip
records with unparseable or future timestamps, and stop (`break`) at the
first already-deduplicated record older than the window start.  Returns the
accumulated normalized transactions and the updated seen-id set. -/
def process_card_activities (start_date now : Nat) (seen : List String)
    (acts : List WiseActivity) (processed : List Transaction) :
    List Transaction × List String :=
  match acts with
  | [] => (processed, seen)
  | act :: rest =>
    if act.act_id ∈ seen then
      process_card_activities start_date now seen rest processed
    else
      let seen' := act.act_id :: seen
      if act.act_type ≠ "CARD_PAYMENT" then
        process_card_activities start_date now seen' rest processed
      else if ¬(act.status = "COMPLETED" || act.status = "PENDING") then
        process_card_activities start_date now seen' rest processed
      else
        match act.created_on with
        | none => process_card_activities start_date now seen' rest processed
        | some tx_date =>
          if tx_date < start_date then (processed, seen')
          else if now < tx_date then
            process_card_activities start_date now seen' rest processed
          else
            process_card_activities start_date now seen' rest
              (processed ++ [normalize_wise_card act tx_date])

/-- `WiseClient.get_card_transactions(days)` applied to one page of
activities (cursor pagination is modelled as a single page; the in-page
dedup and early-stop semantics are preserved): process the page over the
window `[midnight(now - days), now]` and sort by date descending. -/
def get_card_transactions (activities : List WiseActivity) (now : Nat)
    (days : Nat) : List Transaction :=
  let start_date := midnight (now - days * 86400)
  (process_card_activities start_date now [] activities []).1.insertionSort date_desc

/-! ## `weekly_report.py` -/

/-- `fetch_all_transactions(days)`: each source's fetch is attempted under
a blanket `try/except` whose handler only prints the error, so a failing
source contributes no transactions; the merged list is sorted by date
descending.  `mono` and `wise` are the outcomes of the two

source fetches. -/
def fetch_all_transactions (mono wise : Except String (List Transaction)) :
    List Transaction :=
  let mono_txs := match mono with
    | Except.ok txs => txs
    | Except.error _ => []
  let wise_txs := match wise with
    | Except.ok txs => txs
    | Except.error _ => []
  (mono_txs ++ wise_txs).insertionSort date_desc

/-- Absolute-amount-descending comparison used by the top-10-expenses
selection (`sorted(expenses, key=lambda x: abs(x["amount"]),
reverse=True)`). -/
def abs_amount_desc (a b : Transaction) : Prop := |b.amount| ≤ |a.amount|

instance : DecidableRel abs_amount_desc := fun a b =>
  inferInstanceAs (Decidable (|b.amount| ≤ |a.amount|))

instance : IsTotal Transaction abs_amount_desc :=
  ⟨fun a b => le_total |b.amount| |a.amount|⟩

instance : IsTrans Transaction abs_amount_desc :=
  ⟨fun _ _ _ h h' => le_trans h' h⟩

/-- `m[k] += v` on a `defaultdict(float)` whose key order is
first-occurrence order. -/
def add_amount {κ : Type} [DecidableEq κ] (m : List (κ × ℚ)) (k : κ) (v : ℚ) :
    List (κ × ℚ) :=
  match m with
  | [] => [(k, v)]
  | (k', v') :: rest =>
    if k' = k then (k', v' + v) :: rest else (k', v') :: add_amount rest k v

/-- `m[k₁][k₂] += v` on a nested `defaultdict(lambda: defaultdict(float))`. -/
def add_nested {κ₁ κ₂ : Type} [DecidableEq κ₁] [DecidableEq κ₂]
    (m : List (κ₁ × List (κ₂ × ℚ))) (k₁ : κ₁) (k₂ : κ₂) (v : ℚ) :
    List (κ₁ × List (κ₂ × ℚ)) :=
  match m with
  | [] => [(k₁, [(k₂, v)])]
  | (k', inner) :: rest =>
    if k' = k₁ then (k', add_amount inner k₂ v) :: rest
    else (k', inner) :: add_nested rest k₁ k₂ v

/-- String-ascending comparison for `sorted(all_currencies)`. -/
def str_asc (a b : String) : Prop := a ≤ b

instance : DecidableRel str_asc := fun a b =>
  inferInstanceAs (Decidable (a ≤ b))

instance : IsTotal String str_asc := ⟨fun a b => le_total a b⟩

instance : IsTrans String str_asc := ⟨fun _ _ _ h h' => le_trans h h'⟩

/-- One iteration of the `while current <= end_date` loop building the
daily-spending rows.  The structural argument `remaining` is the number of
loop iterations left, `(end_date - current) / 86400 + 1` when
`current ≤ end_date` and 0 otherwise (the loop steps `current` by exactly
one day, so this count decreases by one per iteration); `daily_rows_loop`
below supplies it.  Each row pairs the day's `"%a %d"` key with, per
currency column, `some` of the positive spent amount or `none` for the
explicit `—` marker. -/
def daily_rows_go (daily : List ((Nat × Nat) × List (String × ℚ)))
    (all_currencies : List String) :
    Nat → Nat → List ((Nat × Nat) × List (String × Option ℚ))
  | 0, _current => []
  | remaining + 1, current =>
    let day := day_key current
    let row := all_currencies.map fun curr =>
      let amt := (((daily.lookup day).getD []).lookup curr).getD 0
      (curr, if 0 < amt then some amt else none)
    (day, row) :: daily_rows_go daily all_currencies remaining (current + 86400)

/-- The `while current <= end_date` loop building the daily-spending rows:
one row per day from `current` (a midnight) up to `end_date` inclusive,
stepping a day at a time. -/
def daily_rows_loop (daily : List ((Nat × Nat) × List (String × ℚ)))
    (all_currencies : List String) (end_date : Nat) (current : Nat) :
    List ((Nat × Nat) × List (String × Option ℚ)) :=
  daily_rows_go daily all_currencies
    (if current ≤ end_date then (end_date - current) / 86400 + 1 else 0) current

/-- The computed values of the markdown report built by `generate_report`
(the rendering to markdown text — emoji, table layout, `strftime`
formatting — is presentation only; every number and list in the report is
one of these fields). -/
structure Report where
  period_start : Nat
  period_end : Nat
  all_txs : List Transaction
  expense_by_currency : List (String × ℚ)
  income_by_currency : List (String × ℚ)
  by_category : List (String × List (String × ℚ))
  top_expenses : List Transaction
  daily : Option (List ((Nat × Nat) × List (String × Option ℚ)))
deriving DecidableEq

/-- `generate_report(all_txs, days)` evaluated at time `now`
(`datetime.now()`): totals per currency, category breakdown, top-10
expenses, and the daily grid over `[midnight(now - days), now]`.  The
daily-spending section is built only when the expense-keyed `daily` dict is
non-empty (`if daily:`). -/
def generate_report (all_txs : List Transaction) (days : Nat) (now : Nat) :
    Report :=
  let end_date := now
  let start_date := midnight (now - days * 86400)
  let expenses := all_txs.filter fun tx => tx.is_expense
  let income := all_txs.filter fun tx => !tx.is_expense
  let expense_by_currency :=
    expenses.foldl (fun m tx => add_amount m tx.currency |tx.amount|) []
  let income_by_currency :=
    income.foldl (fun m tx => add_amount m tx.currency |tx.amount|) []
  let by_category :=
    expenses.foldl (fun m tx => add_nested m tx.currency tx.category |tx.amount|) []
  let top_expenses := (expenses.insertionSort abs_amount_desc).take 10
  let daily :=
    expenses.foldl (fun m tx => add_nested m (day_key tx.date) tx.currency |tx.amount|) []
  let daily_section :=
    if daily.isEmpty then none
    else
      let all_currencies :=
        ((daily.foldl (fun acc p => acc ++ p.2.map fun q => q.1) []).dedup).insertionSort str_asc
      some (daily_rows_loop daily all_currencies end_date start_date)
  { period_start := start_date
    period_end := end_date
    all_txs := all_txs
    expense_by_currency := expense_by_currency
    income_by_currency := income_by_currency
    by_category := by_category
    top_expenses := top_expenses
    daily := daily_section }

/-- `generate_spending_report(days)` evaluated at time `now`: fetch from
both sources (best-effort) and generate the report.  Its Python type is a
plain markdown string: there is no error channel to the caller. -/
def generate_spending_report (mono wise : Except String (List Transaction))
    (days : Nat) (now : Nat) : Report :=
  generate_report (fetch_all_transactions mono wise) days now

/-! ## Theorems -/

/-- C8 (confirmed): for every merchant description the categorizer
lowercases the text and evaluates its keyword rules in exactly the
authored order, returning the category of the first rule whose keyword set
matches (`first_matching_rule` over `categorize_rules`); no match falls
back to the generic "Card Payment" label.  In particular "Amazon Prime"
contains the keyword "amazon" of the later generic shopping rule, yet is
categorized "Subscriptions" by the earlier rule, not "Shopping". -/
theorem categorize_merchant_keyword_order :
    (∀ m, categorize_merchant m = first_matching_rule m) ∧
    kw_in "amazon" (py_lower ("Amazon Prime").toList) = true ∧
    categorize_merchant "Amazon Prime" = "Subscriptions" ∧
    categorize_merchant "Amazon Prime" ≠ "Shopping" := by
  refine ⟨fun m => ?_, by decide, by decide, by decide⟩
  simp only [categorize_merchant, first_matching_rule, categorize_rules,
    List.any_cons, List.any_nil, Bool.or_false]
  split_ifs <;>
    simp_all only [List.find?, List.any_cons, List.any_nil, Bool.or_false,
      Bool.not_eq_true, Option.map_some', Option.map_none',
      Option.getD_some, Option.getD_none]

/-- C1 (amended, corrected): when both source fetches fail,
`fetch_all_transactions` absorbs both exceptions (they are only printed)
and yields the empty list, and `generate_spending_report` returns the
report generated from zero transactions; no error reaches the caller. -/
theorem report_when_all_sources_fail (e₁ e₂ : String) (days now : Nat) :
    fetch_all_transactions (Except.error e₁) (Except.error e₂) = [] ∧
    generate_spending_report (Except.error e₁) (Except.error e₂) days now =
      generate_report [] days now :=
  ⟨rfl, rfl⟩

/-- C1 (counterexample): with both the Monobank and the Wise fetch
raising, the caller-facing report operation does not surface any error: it
returns exactly the default report built from zero transactions, refuting
the claim that this case is a visible error rather than a silently
returned empty report. -/
theorem report_when_all_sources_fail_cex :
    fetch_all_transactions (Except.error "Monobank error: boom")
      (Except.error "Wise error: boom") = [] ∧
    generate_spending_report (Except.error "Monobank error: boom")
      (Except.error "Wise error: boom") 14 1700000000 =
      generate_report [] 14 1700000000 :=
  ⟨rfl, rfl⟩

/-- Invariant of the retry loop of `rate_limit_retry`: starting at a given
attempt with `remaining = retries - attempt` iterations left, the loop
invokes the operation between 1 and `remaining` times, returns the outcome
of its last invocation, retries only past rate-limit errors, sleeps the
doubling delays `delay, 2*delay, 4*delay, ...` between attempts, and stops
before exhausting the budget only on success or on a non-rate-limit
error. -/
theorem rate_limit_retry_go_spec {α : Type} (f : Nat → Except String α)
    (retries : Nat) :
    ∀ (remaining attempt delay : Nat), remaining + attempt = retries →
      remaining ≠ 0 →
      1 ≤ (rate_limit_retry_go f retries remaining attempt delay).2.1 ∧
      attempt + (rate_limit_retry_go f retries remaining attempt delay).2.1 ≤ retries ∧
      (rate_limit_retry_go f retries remaining attempt delay).1 =
        f (attempt + (rate_limit_retry_go f retries remaining attempt delay).2.1 - 1) ∧
      (∀ i < (rate_limit_retry_go f retries remaining attempt delay).2.1 - 1,
        ∃ e, f (attempt + i) = Except.error e ∧ is_rate_limit_error e = true) ∧
      (rate_limit_retry_go f retries remaining attempt delay).2.2 =
        (List.range ((rate_limit_retry_go f retries remaining attempt delay).2.1 - 1)).map
          (fun k => delay * 2 ^ k) ∧
      (attempt + (rate_limit_retry_go f retries remaining attempt delay).2.1 < retries →
        (∃ a, (rate_limit_retry_go f retries remaining attempt delay).1 = Except.ok a) ∨
        (∃ e, (rate_limit_retry_go f retries remaining attempt delay).1 = Except.error e ∧
          is_rate_limit_error e = false)) := by
  intro remaining
  induction remaining with
  | zero => intro attempt delay _ hne; exact absurd rfl hne
  | succ r ih =>
    intro attempt delay hsum _
    simp only [rate_limit_retry_go]
    cases hf : f attempt with
    | ok a =>
      dsimp only
      refine ⟨le_refl 1, by omega, by simpa using hf.symm, by omega, by simp,
        fun _ => Or.inl ⟨a, rfl⟩⟩
    | error e =>
      dsimp only
      by_cases hc : (is_rate_limit_error e && decide (attempt < retries - 1)) = true
      · have hc' := hc
        simp only [Bool.and_eq_true, decide_eq_true_eq] at hc'
        obtain ⟨hrl, hlt⟩ := hc'
        have hr0 : r ≠ 0 := by omega
        have hsum' : r + (attempt + 1) = retries := by omega
        obtain ⟨ih1, ih2, ih3, ih4, ih5, ih6⟩ := ih (attempt + 1) (delay * 2) hsum' hr0
        simp only [hc, if_true]
        set out := rate_limit_retry_go f retries r (attempt + 1) (delay * 2) with hout
        refine ⟨by omega, by omega, ?_, ?_, ?_, ?_⟩
        · have harith : attempt + (out.2.1 + 1) - 1 = attempt + 1 + out.2.1 - 1 := by omega
          rw [harith]; exact ih3
        · intro i hi
          cases i with
          | zero => exact ⟨e, by simpa using hf, hrl⟩
          | succ j =>
            have hj : j < out.2.1 - 1 := by omega
            have hje := ih4 j hj
            have harith : attempt + (j + 1) = attempt + 1 + j := by omega
            rw [harith]; exact hje
        · rw [ih5]
          have h1 : out.2.1 + 1 - 1 = (out.2.1 - 1) + 1 := by omega
          rw [h1, List.range_succ_eq_map, List.map_cons, List.map_map]
          refine congrArg₂ _ (by simp) ?_
          refine List.map_congr_left fun k _ => ?_
          simp [Function.comp, pow_succ]
          ring
        · intro hlt2
          exact ih6 (by omega)
      · rw [if_neg hc]
        dsimp only
        refine ⟨le_refl 1, by omega, by simpa using hf.symm, by omega, by simp,
          fun hlt2 => ?_⟩
        right
        refine ⟨e, rfl, ?_⟩
        by_cases hrl : is_rate_limit_error e = true
        · exfalso
          have hd : decide (attempt < retries - 1) = true := decide_eq_true (by omega)
          simp [hrl, hd] at hc
        · simpa using hrl

/-- C2 (amended, corrected): for every wrapped operation and every
`retries ≥ 1` and `initial_delay`, the retry policy invokes the operation
at least once and at most `retries` times, the caller sees the outcome of
the last invocation (so after the budget is exhausted the last error
propagates), every retried attempt failed with a rate-limit error, the
waits are `initial_delay, 2*initial_delay, 4*initial_delay, ...`, and the
loop stops before exhausting the budget only on success or on a
non-rate-limit error (which therefore propagates immediately, without any
retry). -/
theorem rate_limit_retry_policy {α : Type} (f : Nat → Except String α)
    (retries initial_delay : Nat) (h : 1 ≤ retries) :
    1 ≤ (rate_limit_retry f retries initial_delay).2.1 ∧
    (rate_limit_retry f retries initial_delay).2.1 ≤ retries ∧
    (rate_limit_retry f retries initial_delay).1 =
      f ((rate_limit_retry f retries initial_delay).2.1 - 1) ∧
    (∀ i < (rate_limit_retry f retries initial_delay).2.1 - 1,
      ∃ e, f i = Except.error e ∧ is_rate_limit_error e = true) ∧
    (rate_limit_retry f retries initial_delay).2.2 =
      (List.range ((rate_limit_retry f retries initial_delay).2.1 - 1)).map
        (fun k => initial_delay * 2 ^ k) ∧
    ((rate_limit_retry f retries initial_delay).2.1 < retries →
      (∃ a, (rate_limit_retry f retries initial_delay).1 = Except.ok a) ∨
      (∃ e, (rate_limit_retry f retries initial_delay).1 = Except.error e ∧
        is_rate_limit_error e = false)) := by
  have hs := rate_limit_retry_go_spec f retries retries 0 initial_delay (by omega) (by omega)
  simpa [rate_limit_retry] using hs

/-- C2 (counterexample): with `retries = 0` the wrapper still invokes the
operation once — the trailing call after the loop — refuting "invokes the
operation at most `retries` times in total" for every parameter value. -/
theorem rate_limit_retry_policy_cex :
    (rate_limit_retry (fun _ => Except.ok (0 : Nat)) 0 5).2.1 = 1 ∧
    ¬((rate_limit_retry (fun _ => Except.ok (0 : Nat)) 0 5).2.1 ≤ 0) :=
  ⟨rfl, by decide⟩

/-- Witness for the retry-policy theorem at a concrete operation that is
always rate-limited, with `retries = 3` and `initial_delay = 5`. -/
theorem rate_limit_retry_policy_witness :
    1 ≤ 3 ∧
    (rate_limit_retry (fun _ => (Except.error "HTTP 429 Too Many Requests" :
      Except String Nat)) 3 5).2.2 =
      (List.range ((rate_limit_retry (fun _ =>
        (Except.error "HTTP 429 Too Many Requests" : Except String Nat)) 3 5).2.1 - 1)).map
        (fun k => 5 * 2 ^ k) :=
  ⟨by decide, (rate_limit_retry_policy
    (fun _ => (Except.error "HTTP 429 Too Many Requests" : Except String Nat)) 3 5
    (by decide)).2.2.2.2.1⟩

/-- One successful iteration of the chunking loop: the sub-window
`[cs, min (cs + 30 days) now]` is fetched, prepended to the trace, and its
items prepended to the remaining result. -/
theorem get_tx_loop_step_ok {α : Type} (fetch : Nat × Nat → Except String (List α))
    (now cs : Nat) (h : cs < now) (l : List α)
    (hf : fetch (cs, min (cs + 30 * 86400) now) = Except.ok l) :
    get_tx_loop fetch now cs =
      (((get_tx_loop fetch now (min (cs + 30 * 86400) now)).1).map (fun rest => l ++ rest),
        (cs, min (cs + 30 * 86400) now) ::
          (get_tx_loop fetch now (min (cs + 30 * 86400) now)).2) := by
  rw [get_tx_loop, if_pos h]
  simp only [hf]

/-- A chunk error whose text contains "429" (rate limit) or "400"
(invalid range) stops the loop: no further requests, and the loop returns
what was accumulated from this point on, i.e. nothing. -/
theorem get_tx_loop_step_stop {α : Type} (fetch : Nat × Nat → Except String (List α))
    (now cs : Nat) (h : cs < now) (e : String)
    (hf : fetch (cs, min (cs + 30 * 86400) now) = Except.error e)
    (hcode : contains_sub "429" e = true ∨
      (contains_sub "429" e = false ∧ contains_sub "400" e = true)) :
    get_tx_loop fetch now cs = (Except.ok [], [(cs, min (cs + 30 * 86400) now)]) := by
  rw [get_tx_loop, if_pos h]
  simp only [hf]
  rcases hcode with h429 | ⟨h429, h400⟩
  · simp [h429]
  · simp [h429, h400]

/-- Any other chunk error propagates out of the loop. -/
theorem get_tx_loop_step_raise {α : Type} (fetch : Nat × Nat → Except String (List α))
    (now cs : Nat) (h : cs < now) (e : String)
    (hf : fetch (cs, min (cs + 30 * 86400) now) = Except.error e)
    (h429 : contains_sub "429" e = false) (h400 : contains_sub "400" e = false) :
    get_tx_loop fetch now cs = (Except.error e, [(cs, min (cs + 30 * 86400) now)]) := by
  rw [get_tx_loop, if_pos h]
  simp only [hf]
  simp [h429, h400]

/-- The chunking loop terminates when the start of the next sub-window
reaches `now`. -/
theorem get_tx_loop_stop_at_now {α : Type} (fetch : Nat × Nat → Except String (List α))
    (now : Nat) : get_tx_loop fetch now now = (Except.ok [], []) := by
  rw [get_tx_loop, if_neg (lt_irrefl now)]

/-- With an always-successful fetch, the chunking loop starting at `cs`
issues exactly `ceil((now - cs) / 30 days)` fetch calls. -/
theorem get_tx_loop_ok_length {α : Type} (data : Nat × Nat → List α) (now : Nat) :
    ∀ cs, ((get_tx_loop (fun w => Except.ok (data w)) now cs).2).length =
      (now - cs + 2591999) / 2592000 := by
  intro cs
  generalize hn : now - cs = n
  induction n using Nat.strong_induction_on generalizing cs with
  | _ n ih =>
    by_cases h : cs < now
    · have hstep := get_tx_loop_step_ok (fun w => Except.ok (data w)) now cs h
        (data (cs, min (cs + 30 * 86400) now)) rfl
      rw [hstep]
      simp only [List.length_cons]
      have hlt : now - min (cs + 30 * 86400) now < n := by
        rcases Nat.le_total (cs + 30 * 86400) now with hle | hle
        · rw [Nat.min_eq_left hle]; omega
        · rw [Nat.min_eq_right hle]; omega
      rw [ih _ hlt _ rfl]
      rcases Nat.le_total (cs + 30 * 86400) now with hle | hle
      · rw [Nat.min_eq_left hle]; omega
      · rw [Nat.min_eq_right hle]; omega
    · rw [get_tx_loop, if_neg h]
      simp only [List.length_nil]
      omega

/-- C3 (confirmed): a 65-day window is fetched in exactly 3 chunks whose
sub-windows are contiguous, non-overlapping and together cover exactly
`[now - 65 days, now]`, the results being concatenated in order; in
general a `days`-day window issues `ceil(days / 30)` statement calls. -/
theorem monobank_chunked_fetch {α : Type} (data : Nat × Nat → List α) (now : Nat)
    (h : 5616000 ≤ now) :
    (get_transactions (fun w => Except.ok (data w)) now 65).2 =
      [(now - 5616000, now - 3024000), (now - 3024000, now - 432000), (now - 432000, now)] ∧
    (get_transactions (fun w => Except.ok (data w)) now 65).1 =
      Except.ok (data (now - 5616000, now - 3024000) ++
        (data (now - 3024000, now - 432000) ++ data (now - 432000, now))) ∧
    (∀ days : Nat, days * 86400 ≤ now →
      ((get_transactions (fun w => Except.ok (data w)) now days).2).length =
        (days + 29) / 30) := by
  have hs : now - 65 * 86400 = now - 5616000 := by norm_num
  have hm1 : min (now - 5616000 + 30 * 86400) now = now - 3024000 := by
    rw [Nat.min_eq_left (by omega)]; omega
  have hm2 : min (now - 3024000 + 30 * 86400) now = now - 432000 := by
    rw [Nat.min_eq_left (by omega)]; omega
  have hm3 : min (now - 432000 + 30 * 86400) now = now := Nat.min_eq_right (by omega)
  have hstep1 := get_tx_loop_step_ok (fun w => Except.ok (data w)) now (now - 5616000)
    (by omega) (data (now - 5616000, min (now - 5616000 + 30 * 86400) now)) rfl
  rw [hm1] at hstep1
  have hstep2 := get_tx_loop_step_ok (fun w => Except.ok (data w)) now (now - 3024000)
    (by omega) (data (now - 3024000, min (now - 3024000 + 30 * 86400) now)) rfl
  rw [hm2] at hstep2
  have hstep3 := get_tx_loop_step_ok (fun w => Except.ok (data w)) now (now - 432000)
    (by omega) (data (now - 432000, min (now - 432000 + 30 * 86400) now)) rfl
  rw [hm3] at hstep3
  refine ⟨?_, ?_, ?_⟩
  · rw [get_transactions, hs, hstep1, hstep2, hstep3, get_tx_loop_stop_at_now]
  · rw [get_transactions, hs, hstep1, hstep2, hstep3, get_tx_loop_stop_at_now]
    simp [Except.map]
  · intro days hdays
    rw [get_transactions, get_tx_loop_ok_length]
    have hd : now - (now - days * 86400) = days * 86400 := by omega
    rw [hd]
    omega

/-- C4 (confirmed): when the 2nd of 3 chunk fetches of a 65-day window
fails with an error containing "429" (rate limit) — or one containing
"400" (invalid range) — the adapter issues no further chunk requests and
returns exactly the 1st chunk's data instead of raising; any other
failure propagates, discarding the partial data. -/
theorem monobank_partial_on_rate_limit {α : Type} (data : Nat × Nat → List α)
    (now : Nat) (e₁ e₂ e₃ : String) (h : 5616000 ≤ now)
    (h429 : contains_sub "429" e₁ = true)
    (h400 : contains_sub "429" e₃ = false ∧ contains_sub "400" e₃ = true)
    (hother : contains_sub "429" e₂ = false ∧ contains_sub "400" e₂ = false) :
    ((get_transactions (fun w => if w.1 = now - 3024000 then Except.error e₁
        else Except.ok (data w)) now 65).1 =
      Except.ok (data (now - 5616000, now - 3024000)) ∧
     (get_transactions (fun w => if w.1 = now - 3024000 then Except.error e₁
        else Except.ok (data w)) now 65).2 =
      [(now - 5616000, now - 3024000), (now - 3024000, now - 432000)]) ∧
    ((get_transactions (fun w => if w.1 = now - 3024000 then Except.error e₃
        else Except.ok (data w)) now 65).1 =
      Except.ok (data (now - 5616000, now - 3024000)) ∧
     (get_transactions (fun w => if w.1 = now - 3024000 then Except.error e₃
        else Except.ok (data w)) now 65).2 =
      [(now - 5616000, now - 3024000), (now - 3024000, now - 432000)]) ∧
    ((get_transactions (fun w => if w.1 = now - 3024000 then Except.error e₂
        else Except.ok (data w)) now 65).1 = Except.error e₂ ∧
     (get_transactions (fun w => if w.1 = now - 3024000 then Except.error e₂
        else Except.ok (data w)) now 65).2 =
      [(now - 5616000, now - 3024000), (now - 3024000, now - 432000)]) := by
  have hs : now - 65 * 86400 = now - 5616000 := by norm_num
  have hm1 : min (now - 5616000 + 30 * 86400) now = now - 3024000 := by
    rw [Nat.min_eq_left (by omega)]; omega
  have hm2 : min (now - 3024000 + 30 * 86400) now = now - 432000 := by
    rw [Nat.min_eq_left (by omega)]; omega
  refine ⟨?_, ?_, ?_⟩
  · have hf1 : (fun w : Nat × Nat => if w.1 = now - 3024000 then Except.error e₁
        else Except.ok (data w)) (now - 5616000, min (now - 5616000 + 30 * 86400) now) =
        Except.ok (data (now - 5616000, min (now - 5616000 + 30 * 86400) now)) := by
      dsimp only; rw [if_neg (by omega)]
    have hstep1 := get_tx_loop_step_ok
      (fun w : Nat × Nat => if w.1 = now - 3024000 then Except.error e₁
        else Except.ok (data w)) now (now - 5616000) (by omega)
      (data (now - 5616000, min (now - 5616000 + 30 * 86400) now)) hf1
    rw [hm1] at hstep1
    have hf2 : (fun w : Nat × Nat => if w.1 = now - 3024000 then Except.error e₁
        else Except.ok (data w)) (now - 3024000, min (now - 3024000 + 30 * 86400) now) =
        Except.error e₁ := by
      dsimp only; rw [if_pos rfl]
    have hstep2 := get_tx_loop_step_stop
      (fun w : Nat × Nat => if w.1 = now - 3024000 then Except.error e₁
        else Except.ok (data w)) now (now - 3024000) (by omega) e₁ hf2 (Or.inl h429)
    rw [hm2] at hstep2
    rw [get_transactions, hs, hstep1, hstep2]
    exact ⟨by simp [Except.map], rfl⟩
  · have hf1 : (fun w : Nat × Nat => if w.1 = now - 3024000 then Except.error e₃
        else Except.ok (data w)) (now - 5616000, min (now - 5616000 + 30 * 86400) now) =
        Except.ok (data (now - 5616000, min (now - 5616000 + 30 * 86400) now)) := by
      dsimp only; rw [if_neg (by omega)]
    have hstep1 := get_tx_loop_step_ok
      (fun w : Nat × Nat => if w.1 = now - 3024000 then Except.error e₃
        else Except.ok (data w)) now (now - 5616000) (by omega)
      (data (now - 5616000, min (now - 5616000 + 30 * 86400) now)) hf1
    rw [hm1] at hstep1
    have hf2 : (fun w : Nat × Nat => if w.1 = now - 3024000 then Except.error e₃
        else Except.ok (data w)) (now - 3024000, min (now - 3024000 + 30 * 86400) now) =
        Except.error e₃ := by
      dsimp only; rw [if_pos rfl]
    have hstep2 := get_tx_loop_step_stop
      (fun w : Nat × Nat => if w.1 = now - 3024000 then Except.error e₃
        else Except.ok (data w)) now (now - 3024000) (by omega) e₃ hf2 (Or.inr h400)
    rw [hm2] at hstep2
    rw [get_transactions, hs, hstep1, hstep2]
    exact ⟨by simp [Except.map], rfl⟩
  · have hf1 : (fun w : Nat × Nat => if w.1 = now - 3024000 then Except.error e₂
        else Except.ok (data w)) (now - 5616000, min (now - 5616000 + 30 * 86400) now) =
        Except.ok (data (now - 5616000, min (now - 5616000 + 30 * 86400) now)) := by
      dsimp only; rw [if_neg (by omega)]
    have hstep1 := get_tx_loop_step_ok
      (fun w : Nat × Nat => if w.1 = now - 3024000 then Except.error e₂
        else Except.ok (data w)) now (now - 5616000) (by omega)
      (data (now - 5616000, min (now - 5616000 + 30 * 86400) now)) hf1
    rw [hm1] at hstep1
    have hf2 : (fun w : Nat × Nat => if w.1 = now - 3024000 then Except.error e₂
        else Except.ok (data w)) (now - 3024000, min (now - 3024000 + 30 * 86400) now) =
        Except.error e₂ := by
      dsimp only; rw [if_pos rfl]
    have hstep2 := get_tx_loop_step_raise
      (fun w : Nat × Nat => if w.1 = now - 3024000 then Except.error e₂
        else Except.ok (data w)) now (now - 3024000) (by omega) e₂ hf2
      hother.1 hother.2
    rw [hm2] at hstep2
    rw [get_transactions, hs, hstep1, hstep2]
    exact ⟨by simp [Except.map], rfl⟩

/-- Witness for the chunked-fetch theorem at `now = 5616000` (exactly 65
days after the epoch) with a fetch returning its own window. -/
theorem monobank_chunked_fetch_witness :
    5616000 ≤ 5616000 ∧
    (get_transactions (fun w => Except.ok ([w] : List (Nat × Nat))) 5616000 65).2 =
      [(0, 2592000), (2592000, 5184000), (5184000, 5616000)] :=
  ⟨le_refl _, (monobank_chunked_fetch (fun w => [w]) 5616000 (le_refl _)).1⟩

/-- Witness for the partial-result theorem: concrete rate-limit, invalid
range and unrelated error strings at `now = 5616000`. -/
theorem monobank_partial_on_rate_limit_witness :
    (contains_sub "429" "HTTP 429 Too Many Requests" = true) ∧
    (get_transactions (fun w : Nat × Nat =>
      if w.1 = 2592000 then Except.error "HTTP 429 Too Many Requests"
      else Except.ok ([w] : List (Nat × Nat))) 5616000 65).1 =
      Except.ok [((0 : Nat), (2592000 : Nat))] :=
  ⟨by decide,
    ((monobank_partial_on_rate_limit (fun w => [w]) 5616000
      "HTTP 429 Too Many Requests" "connection reset" "HTTP 400 Bad Request"
      (by decide) (by decide) (by decide) (by decide)).1).1⟩

/-- C10 (confirmed): `parse_amount_string` is total with the fixed default
(0.0, "EUR"): the empty string, a string with at most one token, and a
string whose first token `float` rejects all yield the default instead of
raising; consequently a completed in-window card activity whose
`primaryAmount` is unparseable and whose `secondaryAmount` is absent or
non-positive is still normalized into a transaction with amount `-0.0`
(i.e. 0 as a rational) and currency "EUR". -/
theorem parse_amount_string_total_default :
    (parse_amount_string "" = (0, "EUR")) ∧
    (∀ s, (amount_parts s).length ≤ 1 → parse_amount_string s = (0, "EUR")) ∧
    (∀ s p ps, amount_parts s = p :: ps → parse_float p = none →
      parse_amount_string s = (0, "EUR")) ∧
    (∀ (act : WiseActivity) (start_date now : Nat),
      act.act_type = "CARD_PAYMENT" →
      (act.status = "COMPLETED" ∨ act.status = "PENDING") →
      ∀ d, act.created_on = some d → start_date ≤ d → d ≤ now →
      parse_amount_string act.primary_amount = (0, "EUR") →
      (act.secondary_amount = "" ∨ (parse_amount_string act.secondary_amount).1 ≤ 0) →
      ∃ tx, (process_card_activities start_date now [] [act] []).1 = [tx] ∧
        tx.amount = 0 ∧ tx.currency = "EUR" ∧ tx.is_expense = true ∧ tx.date = d) := by
  have hdef : ∀ s, s ≠ "" → parse_amount_string s =
      (match amount_parts s with
        | p₁ :: p₂ :: _ =>
          match parse_float p₁ with
          | some a => (a, p₂.asString)
          | none => ((0 : ℚ), "EUR")
        | _ => ((0 : ℚ), "EUR")) := by
    intro s hs
    rw [parse_amount_string, if_neg hs]
  refine ⟨rfl, ?_, ?_, ?_⟩
  · intro s h
    by_cases hs : s = ""
    · rw [hs]; rfl
    · rw [hdef s hs]
      rcases hap : amount_parts s with _ | ⟨p, ps⟩
      · rfl
      · rcases ps with _ | ⟨p₂, rest⟩
        · rfl
        · rw [hap] at h; simp at h
  · intro s p ps hap hpf
    by_cases hs : s = ""
    · rw [hs]; rfl
    · rw [hdef s hs, hap]
      rcases ps with _ | ⟨p₂, rest⟩
      · rfl
      · simp only [hpf]
  · intro act start_date now htype hstatus d hd hsd hdn hprim hsec
    have heff : card_effective_amount act = (0, "EUR") := by
      simp only [card_effective_amount, hprim]
      rcases hsec with hempty | hle
      · simp [hempty]
      · by_cases hne : act.secondary_amount = ""
        · simp [hne]
        · rw [if_pos (by simpa using hne)]
          rw [if_neg (by simpa using hle)]
    refine ⟨normalize_wise_card act d, ?_, ?_, ?_, rfl, rfl⟩
    · rw [process_card_activities]
      rw [if_neg (List.not_mem_nil act.act_id)]
      rw [if_neg (by simp [htype])]
      rw [if_neg (by rcases hstatus with h | h <;> simp [h])]
      simp only [hd]
      rw [if_neg (show ¬(d < start_date) by omega),
        if_neg (show ¬(now < d) by omega)]
      rw [process_card_activities]
      rfl
    · show -(card_effective_amount act).1 = 0
      rw [heff]
      simp
    · show (card_effective_amount act).2 = "EUR"
      rw [heff]

/-- Witness for the amount-parsing theorem: the unparseable primary amount
"N/A" on a concrete completed card activity. -/
theorem parse_amount_string_total_default_witness :
    parse_amount_string "N/A" = (0, "EUR") ∧
    (∃ tx, (process_card_activities 500 2000 []
      [⟨"a1", "CARD_PAYMENT", "COMPLETED", some 1000, "N/A", "", "Store <b>X</b>"⟩] []).1 =
        [tx] ∧
      tx.amount = 0 ∧ tx.currency = "EUR" ∧ tx.is_expense = true ∧ tx.date = 1000) :=
  ⟨by decide, parse_amount_string_total_default.2.2.2
    ⟨"a1", "CARD_PAYMENT", "COMPLETED", some 1000, "N/A", "", "Store <b>X</b>"⟩ 500 2000 rfl
    (Or.inl rfl) 1000 rfl (by decide) (by decide) (by decide) (Or.inl rfl)⟩

/-- Membership in an append-accumulating fold. -/
theorem mem_foldl_append {β γ : Type} (g : γ → List β) (l : List γ)
    (init : List β) (x : β) :
    x ∈ l.foldl (fun acc a => acc ++ g a) init ↔ x ∈ init ∨ ∃ a ∈ l, x ∈ g a := by
  induction l generalizing init with
  | nil => simp
  | cons a l ih =>
    simp only [List.foldl_cons, ih, List.mem_append, List.mem_cons]
    constructor
    · rintro (⟨hx | hx⟩ | ⟨b, hb, hx⟩)
      · exact Or.inl hx
      · exact Or.inr ⟨a, Or.inl rfl, hx⟩
      · exact Or.inr ⟨b, Or.inr hb, hx⟩
    · rintro (hx | ⟨b, rfl | hb, hx⟩)
      · exact Or.inl (Or.inl hx)
      · exact Or.inl (Or.inr hx)
      · exact Or.inr ⟨b, hb, hx⟩

/-- Every transaction produced by the card-activity loop is either carried
over from the accumulator or the normalization of one of the activities. -/
theorem process_card_mem (start_date now : Nat) :
    ∀ (acts : List WiseActivity) (seen : List String)
      (processed : List Transaction) (tx : Transaction),
      tx ∈ (process_card_activities start_date now seen acts processed).1 →
      tx ∈ processed ∨ ∃ a ∈ acts, ∃ d, tx = normalize_wise_card a d := by
  intro acts
  induction acts with
  | nil =>
    intro seen processed tx h
    rw [process_card_activities] at h
    exact Or.inl h
  | cons a rest ih =>
    intro seen processed tx h
    have lift : tx ∈ processed ∨ (∃ b ∈ rest, ∃ d, tx = normalize_wise_card b d) →
        tx ∈ processed ∨ ∃ b ∈ a :: rest, ∃ d, tx = normalize_wise_card b d :=
      fun hc => hc.imp id fun ⟨b, hb, hd⟩ => ⟨b, List.mem_cons_of_mem _ hb, hd⟩
    rw [process_card_activities] at h
    by_cases h1 : a.act_id ∈ seen
    · rw [if_pos h1] at h; exact lift (ih _ _ _ h)
    · rw [if_neg h1] at h
      by_cases h2 : a.act_type ≠ "CARD_PAYMENT"
      · rw [if_pos h2] at h; exact lift (ih _ _ _ h)
      · rw [if_neg h2] at h
        by_cases h3 : ¬(a.status = "COMPLETED" || a.status = "PENDING")
        · rw [if_pos h3] at h; exact lift (ih _ _ _ h)
        · rw [if_neg h3] at h
          cases hc : a.created_on with
          | none => simp only [hc] at h; exact lift (ih _ _ _ h)
          | some d =>
            simp only [hc] at h
            by_cases h4 : d < start_date
            · rw [if_pos h4] at h; exact Or.inl h
            · rw [if_neg h4] at h
              by_cases h5 : now < d
              · rw [if_pos h5] at h; exact lift (ih _ _ _ h)
              · rw [if_neg h5] at h
                rcases ih _ _ _ h with hp | ⟨b, hb, hd⟩
                · rcases List.mem_append.mp hp with hp | hp
                  · exact Or.inl hp
                  · rcases List.mem_singleton.mp hp with rfl
                    exact Or.inr ⟨a, List.mem_cons_self _ _, d, rfl⟩
                · exact Or.inr ⟨b, List.mem_cons_of_mem _ hb, hd⟩

/-- C9 (amended, corrected): `is_expense = true ↔ amount < 0` holds for
every transaction normalized by the Monobank all-accounts fetch
(unconditionally), for every Wise transfer whenever the raw records'
`sourceValue` is positive, and for every Wise card payment whenever the
effective parsed amount is positive.  (For degenerate raw inputs — a zero
or negative `sourceValue`, or an unparseable card amount — the invariant
fails, see the counterexample.) -/
theorem normalized_sign_invariant :
    (∀ accounts statements now days tx,
      tx ∈ get_all_transactions accounts statements now days →
      (tx.is_expense = true ↔ tx.amount < 0)) ∧
    (∀ (transfers : List WiseTransfer) now days,
      (∀ t ∈ transfers, 0 < t.source_value) →
      ∀ tx ∈ get_transfers transfers now days,
        (tx.is_expense = true ↔ tx.amount < 0)) ∧
    (∀ (acts : List WiseActivity) now days,
      (∀ a ∈ acts, 0 < (card_effective_amount a).1) →
      ∀ tx ∈ get_card_transactions acts now days,
        (tx.is_expense = true ↔ tx.amount < 0)) := by
  refine ⟨?_, ?_, ?_⟩
  · intro accounts statements now days tx htx
    rw [get_all_transactions] at htx
    rw [(List.perm_insertionSort date_desc _).mem_iff] at htx
    rw [mem_foldl_append] at htx
    rcases htx with h | ⟨a, _, h⟩
    · exact absurd h (List.not_mem_nil tx)
    · rw [mono_account_txs] at h
      split at h
      · exact absurd h (List.not_mem_nil tx)
      · split at h
        · rename_i txs _
          rw [process_mono_statement] at h
          rcases List.mem_filterMap.mp h with ⟨raw, _, hval⟩
          split at hval
          · exact absurd hval (by simp)
          · rcases Option.some.injEq _ _ ▸ hval with rfl
            simp only [normalize_mono_tx]
            constructor
            · intro he
              exact of_decide_eq_true he
            · intro ha
              exact decide_eq_true ha
        · exact absurd h (List.not_mem_nil tx)
  · intro transfers now days hpos tx htx
    rw [get_transfers] at htx
    rw [(List.perm_insertionSort date_desc _).mem_iff] at htx
    rcases List.mem_filterMap.mp htx with ⟨t, hmem, hval⟩
    split at hval
    · rename_i hstatus
      cases hc : t.created with
      | none => simp only [hc] at hval; exact absurd hval (by simp)
      | some d =>
        simp only [hc] at hval
        split at hval
        · exact absurd hval (by simp)
        · rcases Option.some.injEq _ _ ▸ hval with rfl
          have hsv := hpos t hmem
          simp only [normalize_wise_transfer]
          cases hacct : t.source_account with
          | none =>
            constructor
            · intro he; simp [hacct] at he
            · intro ha
              rw [if_pos rfl] at ha
              exact absurd (ha.trans hsv) (lt_irrefl _)
          | some acct =>
            constructor
            · intro _
              rw [if_neg (by simp)]
              simpa using hsv
            · intro _
              simp
    · exact absurd hval (by simp)
  · intro acts now days hpos tx htx
    rw [get_card_transactions] at htx
    rw [(List.perm_insertionSort date_desc _).mem_iff] at htx
    rcases process_card_mem _ _ _ _ _ _ htx with h | ⟨a, ha, d, rfl⟩
    · exact absurd h (List.not_mem_nil tx)
    · have heff := hpos a ha
      simp only [normalize_wise_card]
      constructor
      · intro _; simpa using heff
      · intro _; trivial

/-- C9 (counterexample): a completed in-window Wise card activity whose
`primaryAmount` is unparseable normalizes to a transaction with
`is_expense = true` but `amount = -0.0`, which is not negative — refuting
the invariant for every possible raw input record. -/
theorem normalized_sign_invariant_cex :
    ((get_card_transactions
        [⟨"a1", "CARD_PAYMENT", "COMPLETED", some 100000, "N/A", "", "Shop"⟩]
        1296500 14).map fun tx => (tx.is_expense, decide (tx.amount < 0))) =
      [(true, false)] ∧
    ¬(∀ tx ∈ get_card_transactions
        [⟨"a1", "CARD_PAYMENT", "COMPLETED", some 100000, "N/A", "", "Shop"⟩]
        1296500 14, tx.is_expense = true ↔ tx.amount < 0) :=
  ⟨by decide, by decide⟩

/-- Witness for the sign-invariant theorem on a concrete outgoing Wise
transfer with positive source value. -/
theorem normalized_sign_invariant_witness :
    (∀ t ∈ [(⟨"outgoing_payment_sent", some 100000, 50, "EUR", "USD", "rent", "",
        some 7⟩ : WiseTransfer)], 0 < t.source_value) ∧
    (∀ tx ∈ get_transfers [⟨"outgoing_payment_sent", some 100000, 50, "EUR", "USD",
        "rent", "", some 7⟩] 1296500 14, (tx.is_expense = true ↔ tx.amount < 0)) :=
  ⟨by decide, normalized_sign_invariant.2.1
    [⟨"outgoing_payment_sent", some 100000, 50, "EUR", "USD", "rent", "", some 7⟩]
    1296500 14 (by decide)⟩

/-- C6 (confirmed): the report's top-expenses section is the first 10 of
the stable absolute-amount-descending sort of the expense transactions.
With M expenses: for M ≤ 10 it contains exactly the M expenses; for
M > 10 it has length 10 and every returned expense's absolute amount is ≥
every non-returned expense's absolute amount (the non-returned expenses
being the remainder of the sort, a permutation complement); ties are
broken stably on the input order (a pair in input order with equal
absolute amounts stays in that order). -/
theorem top_expenses_selection (txs : List Transaction) (days now : Nat) :
    (generate_report txs days now).top_expenses =
      ((txs.filter fun tx => tx.is_expense).insertionSort abs_amount_desc).take 10 ∧
    ((txs.filter fun tx => tx.is_expense).length ≤ 10 →
      List.Perm (((txs.filter fun tx => tx.is_expense).insertionSort abs_amount_desc).take 10)
        (txs.filter fun tx => tx.is_expense)) ∧
    (10 < (txs.filter fun tx => tx.is_expense).length →
      (((txs.filter fun tx => tx.is_expense).insertionSort abs_amount_desc).take 10).length
          = 10 ∧
      List.Perm (txs.filter fun tx => tx.is_expense)
        ((((txs.filter fun tx => tx.is_expense).insertionSort abs_amount_desc).take 10) ++
          (((txs.filter fun tx => tx.is_expense).insertionSort abs_amount_desc).drop 10)) ∧
      (∀ x ∈ ((txs.filter fun tx => tx.is_expense).insertionSort abs_amount_desc).take 10,
       ∀ y ∈ ((txs.filter fun tx => tx.is_expense).insertionSort abs_amount_desc).drop 10,
        |y.amount| ≤ |x.amount|)) ∧
    (∀ a b : Transaction, |a.amount| = |b.amount| →
      List.Sublist [a, b] (txs.filter fun tx => tx.is_expense) →
      List.Sublist [a, b]
        ((txs.filter fun tx => tx.is_expense).insertionSort abs_amount_desc)) := by
  refine ⟨rfl, ?_, ?_, ?_⟩
  · intro hM
    have hlen : (((txs.filter fun tx => tx.is_expense).insertionSort
        abs_amount_desc)).length ≤ 10 := by
      rw [(List.perm_insertionSort abs_amount_desc _).length_eq]; exact hM
    rw [List.take_of_length_le hlen]
    exact List.perm_insertionSort abs_amount_desc _
  · intro hM
    have hlen : (((txs.filter fun tx => tx.is_expense).insertionSort
        abs_amount_desc)).length = (txs.filter fun tx => tx.is_expense).length :=
      (List.perm_insertionSort abs_amount_desc _).length_eq
    refine ⟨?_, ?_, ?_⟩
    · rw [List.length_take, hlen]; omega
    · rw [List.take_append_drop]
      exact (List.perm_insertionSort abs_amount_desc _).symm
    · have hsorted : ((txs.filter fun tx => tx.is_expense).insertionSort
          abs_amount_desc).Pairwise abs_amount_desc :=
        List.sorted_insertionSort abs_amount_desc _
      rw [← List.take_append_drop 10 ((txs.filter fun tx => tx.is_expense).insertionSort
        abs_amount_desc)] at hsorted
      exact fun x hx y hy => (List.pairwise_append.mp hsorted).2.2 x hx y hy
  · intro a b hab hsub
    exact List.pair_sublist_insertionSort (le_of_eq hab.symm) hsub

/-- Concrete three-transaction list (two expenses) for the top-expenses
witness. -/
def top_expenses_witness_txs : List Transaction :=
  [{ date := 3, description := "a", amount := -5, currency := "EUR", mcc := none,
     category := "c", source := "Wise", account_type := "card", is_expense := true },
   { date := 2, description := "b", amount := 7, currency := "EUR", mcc := none,
     category := "c", source := "Wise", account_type := "card", is_expense := false },
   { date := 1, description := "d", amount := -2, currency := "EUR", mcc := none,
     category := "c", source := "Wise", account_type := "card", is_expense := true }]

/-- Witness for the top-expenses theorem in the M ≤ 10 case. -/
theorem top_expenses_selection_witness :
    ((top_expenses_witness_txs.filter fun tx => tx.is_expense).length <= 10) /\
    List.Perm (((top_expenses_witness_txs.filter fun tx =>
        tx.is_expense).insertionSort abs_amount_desc).take 10)
      (top_expenses_witness_txs.filter fun tx => tx.is_expense) :=
  And.intro (by decide)
    ((top_expenses_selection top_expenses_witness_txs 14 0).2.1 (by decide))

/-- The daily-rows loop emits exactly one row per iteration. -/
theorem daily_rows_go_length (m : List ((Nat × Nat) × List (String × ℚ)))
    (curs : List String) :
    ∀ r c, (daily_rows_go m curs r c).length = r := by
  intro r
  induction r with
  | zero => intro c; rfl
  | succ r ih =>
    intro c
    simp only [daily_rows_go, List.length_cons, ih (c + 86400)]

/-- The k-th daily row carries the day key of the k-th day after the
loop's starting midnight. -/
theorem daily_rows_go_keys (m : List ((Nat × Nat) × List (String × ℚ)))
    (curs : List String) :
    ∀ r c, (daily_rows_go m curs r c).map Prod.fst =
      (List.range r).map fun k => day_key (c + 86400 * k) := by
  intro r
  induction r with
  | zero => intro c; rfl
  | succ r ih =>
    intro c
    simp only [daily_rows_go, List.map_cons, ih (c + 86400)]
    rw [List.range_succ_eq_map, List.map_cons, List.map_map]
    refine congrArg₂ _ (by simp) ?_
    refine List.map_congr_left fun k _ => ?_
    simp only [Function.comp]
    exact congrArg day_key (by omega)

/-- A day whose key is absent from the expense-sum dictionary gets the
explicit empty marker (`none`, rendered as a dash) in every currency
column — it is not omitted. -/
theorem daily_rows_go_zero (m : List ((Nat × Nat) × List (String × ℚ)))
    (curs : List String) :
    ∀ r c row, row ∈ daily_rows_go m curs r c → m.lookup row.1 = none →
      ∀ q ∈ row.2, q.2 = none := by
  intro r
  induction r with
  | zero => intro c row hrow; exact absurd hrow (List.not_mem_nil row)
  | succ r ih =>
    intro c row hrow hnone q hq
    simp only [daily_rows_go, List.mem_cons] at hrow
    rcases hrow with rfl | hrow
    · simp only at hq hnone
      rcases List.mem_map.mp hq with ⟨curr, _, rfl⟩
      simp only [hnone, Option.getD_none, List.lookup_nil]
      rw [if_neg (lt_irrefl 0)]
    · exact ih (c + 86400) row hrow hnone q hq

/-- Updating a nested sum dictionary at one key leaves lookups of other
keys unchanged. -/
theorem add_nested_lookup_ne {κ₁ κ₂ : Type} [BEq κ₁] [LawfulBEq κ₁]
    [DecidableEq κ₁] [DecidableEq κ₂]
    (k₁ : κ₁) (k₂ : κ₂) (v : ℚ) (k : κ₁) (h : k ≠ k₁) :
    ∀ m : List (κ₁ × List (κ₂ × ℚ)), (add_nested m k₁ k₂ v).lookup k = m.lookup k := by
  intro m
  induction m with
  | nil =>
    simp [add_nested, List.lookup, beq_eq_false_iff_ne.mpr h]
  | cons p rest ih =>
    rcases p with ⟨k', inner⟩
    rw [add_nested]
    by_cases hk : k' = k₁
    · subst hk
      rw [if_pos rfl]
      simp [List.lookup, beq_eq_false_iff_ne.mpr h]
    · rw [if_neg hk]
      by_cases hkk : k == k'
      · simp [List.lookup, hkk]
      · simp only [List.lookup]
        rw [Bool.not_eq_true] at hkk
        rw [hkk]
        exact ih

/-- Updating a nested sum dictionary never empties it. -/
theorem add_nested_ne_nil {κ₁ κ₂ : Type} [DecidableEq κ₁] [DecidableEq κ₂]
    (m : List (κ₁ × List (κ₂ × ℚ))) (k₁ : κ₁) (k₂ : κ₂) (v : ℚ) :
    add_nested m k₁ k₂ v ≠ [] := by
  cases m with
  | nil => simp [add_nested]
  | cons p rest => rw [add_nested]; split <;> simp

/-- The expense-sum fold keeps a non-empty dictionary non-empty. -/
theorem daily_fold_ne_nil :
    ∀ (txs : List Transaction) (m : List ((Nat × Nat) × List (String × ℚ))), m ≠ [] →
      txs.foldl (fun m tx => add_nested m (day_key tx.date) tx.currency |tx.amount|) m ≠ [] := by
  intro txs
  induction txs with
  | nil => intro m hm; exact hm
  | cons tx rest ih =>
    intro m _
    exact ih _ (add_nested_ne_nil _ _ _ _)

/-- A day key that no expense maps to is absent from the folded expense
dictionary. -/
theorem daily_fold_lookup_none (k : Nat × Nat) :
    ∀ (txs : List Transaction), (∀ tx ∈ txs, day_key tx.date ≠ k) →
    ∀ m : List ((Nat × Nat) × List (String × ℚ)), m.lookup k = none →
      (txs.foldl (fun m tx =>
        add_nested m (day_key tx.date) tx.currency |tx.amount|) m).lookup k = none := by
  intro txs
  induction txs with
  | nil => intro _ m hm; exact hm
  | cons tx rest ih =>
    intro hk m hm
    refine ih (fun t ht => hk t (List.mem_cons_of_mem _ ht)) _ ?_
    show List.lookup k (add_nested m (day_key tx.date) tx.currency |tx.amount|) = none
    rw [add_nested_lookup_ne _ _ _ _ (Ne.symm (hk tx (List.mem_cons_self _ _)))]
    exact hm

/-- Unfolding of the daily section of `generate_report`: built only when
the expense dictionary is non-empty (`if daily:`), over the grid from
`midnight(now - days)` to `now`. -/
theorem generate_report_daily_eq (txs : List Transaction) (days now : Nat) :
    (generate_report txs days now).daily =
      if ((txs.filter fun tx => tx.is_expense).foldl
          (fun m tx => add_nested m (day_key tx.date) tx.currency |tx.amount|) []).isEmpty
      then none
      else some (daily_rows_loop
        ((txs.filter fun tx => tx.is_expense).foldl
          (fun m tx => add_nested m (day_key tx.date) tx.currency |tx.amount|) [])
        (((((txs.filter fun tx => tx.is_expense).foldl
          (fun m tx => add_nested m (day_key tx.date) tx.currency |tx.amount|) []).foldl
            (fun acc p => acc ++ p.2.map fun q => q.1) []).dedup).insertionSort str_asc)
        now (midnight (now - days * 86400))) := rfl

/-- C7 (amended, corrected): for a `days`-day report window the daily
breakdown, when present, contains exactly `days + 1` rows — one per
calendar day from `midnight(now - days)` to `now` inclusive (15 for a
14-day window, not 14) — and a day with no expense activity keeps its row
with the explicit empty marker in every currency column; but the whole
breakdown section is omitted (`none`) when the window has no expenses at
all. -/
theorem daily_breakdown_grid (txs : List Transaction) (days now : Nat)
    (h : days * 86400 ≤ now) :
    ((txs.filter fun tx => tx.is_expense) = [] →
      (generate_report txs days now).daily = none) ∧
    ((txs.filter fun tx => tx.is_expense) ≠ [] →
      ∃ rows, (generate_report txs days now).daily = some rows ∧
        rows.length = days + 1 ∧
        rows.map Prod.fst = (List.range (days + 1)).map
          (fun k => day_key (midnight (now - days * 86400) + 86400 * k)) ∧
        (∀ row ∈ rows,
          (∀ tx ∈ txs.filter fun tx => tx.is_expense, day_key tx.date ≠ row.1) →
          ∀ q ∈ row.2, q.2 = none)) := by
  have hcount : (if midnight (now - days * 86400) ≤ now then
      (now - midnight (now - days * 86400)) / 86400 + 1 else 0) = days + 1 := by
    rw [if_pos (by simp only [midnight]; omega)]
    simp only [midnight]
    omega
  constructor
  · intro hemp
    rw [generate_report_daily_eq, hemp]
    rfl
  · intro hne
    have hfold_ne : ((txs.filter fun tx => tx.is_expense).foldl
        (fun m tx => add_nested m (day_key tx.date) tx.currency |tx.amount|) []) ≠ [] := by
      rcases hl : txs.filter fun tx => tx.is_expense with _ | ⟨t, rest⟩
      · exact absurd hl hne
      · rw [hl, List.foldl_cons]
        exact daily_fold_ne_nil rest _ (add_nested_ne_nil _ _ _ _)
    have hempty_false : ((txs.filter fun tx => tx.is_expense).foldl
        (fun m tx => add_nested m (day_key tx.date) tx.currency |tx.amount|) []).isEmpty
          = false := by
      rcases hl : (txs.filter fun tx => tx.is_expense).foldl
          (fun m tx => add_nested m (day_key tx.date) tx.currency |tx.amount|) [] with
        _ | ⟨p, rest⟩
      · exact absurd hl hfold_ne
      · rw [hl]; rfl
    refine ⟨daily_rows_loop
      ((txs.filter fun tx => tx.is_expense).foldl
        (fun m tx => add_nested m (day_key tx.date) tx.currency |tx.amount|) [])
      (((((txs.filter fun tx => tx.is_expense).foldl
        (fun m tx => add_nested m (day_key tx.date) tx.currency |tx.amount|) []).foldl
          (fun acc p => acc ++ p.2.map fun q => q.1) []).dedup).insertionSort str_asc)
      now (midnight (now - days * 86400)), ?_, ?_, ?_, ?_⟩
    · rw [generate_report_daily_eq]
      rw [if_neg (by rw [hempty_false]; exact Bool.false_ne_true)]
    · rw [daily_rows_loop, daily_rows_go_length, hcount]
    · rw [daily_rows_loop, daily_rows_go_keys, hcount]
    · intro row hrow hnk q hq
      rw [daily_rows_loop] at hrow
      refine daily_rows_go_zero _ _ _ _ row hrow ?_ q hq
      exact daily_fold_lookup_none row.1 _ hnk [] rfl

/-- C7 (counterexample): for a 14-day window the daily breakdown has 15
rows, not 14, and with no expenses at all the breakdown section is absent
rather than present — refuting both the 14-row count and the
always-present breakdown. -/
theorem daily_breakdown_grid_cex :
    (generate_report [⟨1699990000, "a", -5, "EUR", none, "c", "Wise", "card", true⟩]
        14 1700000000).daily.map List.length = some 15 ∧
    (15 : Nat) ≠ 14 ∧
    (generate_report ([] : List Transaction) 14 1700000000).daily = none :=
  ⟨by decide, by decide, rfl⟩

/-- Witness for the daily-breakdown theorem on a one-expense report. -/
theorem daily_breakdown_grid_witness :
    (([⟨1699990000, "a", -5, "EUR", none, "c", "Wise", "card", true⟩] :
        List Transaction).filter (fun tx => tx.is_expense) ≠ []) ∧
    (∃ rows, (generate_report
        [⟨1699990000, "a", -5, "EUR", none, "c", "Wise", "card", true⟩]
        14 1700000000).daily = some rows ∧
      rows.length = 14 + 1 ∧
      rows.map Prod.fst = (List.range (14 + 1)).map
        (fun k => day_key (midnight (1700000000 - 14 * 86400) + 86400 * k)) ∧
      (∀ row ∈ rows,
        (∀ tx ∈ ([⟨1699990000, "a", -5, "EUR", none, "c", "Wise", "card", true⟩] :
          List Transaction).filter fun tx => tx.is_expense, day_key tx.date ≠ row.1) →
        ∀ q ∈ row.2, q.2 = none)) :=
  ⟨by decide, (daily_breakdown_grid
    [⟨1699990000, "a", -5, "EUR", none, "c", "Wise", "card", true⟩]
    14 1700000000 (by decide)).2 (by decide)⟩

/-- `List.lookup` after `add_to_group`: the addressed bucket gains `tx` at
its end (created as `[tx]` if absent), every other bucket is untouched. -/
theorem lookup_add_to_group (gs : List ((List Char × ℚ) × List MonoStatementTx))
    (k k' : List Char × ℚ) (tx : MonoStatementTx) :
    (add_to_group gs k' tx).lookup k =
      if k = k' then some (((gs.lookup k).getD []) ++ [tx]) else gs.lookup k := by
  induction gs with
  | nil =>
    by_cases h : k = k'
    · subst h; simp [add_to_group, List.lookup]
    · simp [add_to_group, List.lookup, h, beq_eq_false_iff_ne.mpr h]
  | cons p rest ih =>
    rcases p with ⟨kp, txs⟩
    rw [add_to_group]
    by_cases h1 : kp = k'
    · subst h1
      rw [if_pos rfl]
      by_cases h2 : k = kp
      · subst h2
        simp [List.lookup, if_pos rfl]
      · simp [List.lookup, beq_eq_false_iff_ne.mpr h2, if_neg h2, h2]
    · rw [if_neg h1]
      by_cases h2 : k = kp
      · subst h2
        rw [if_neg h1]
        simp [List.lookup]
      · simp only [List.lookup, beq_eq_false_iff_ne.mpr h2]
        exact ih

/-- `add_to_group` preserves the key list when the key is already present
and appends it at the end otherwise (`defaultdict` insertion order). -/
theorem keys_add_to_group (gs : List ((List Char × ℚ) × List MonoStatementTx))
    (k : List Char × ℚ) (tx : MonoStatementTx) :
    (add_to_group gs k tx).map Prod.fst =
      if k ∈ gs.map Prod.fst then gs.map Prod.fst else gs.map Prod.fst ++ [k] := by
  induction gs with
  | nil => simp [add_to_group]
  | cons p rest ih =>
    rcases p with ⟨kp, txs⟩
    rw [add_to_group]
    by_cases h1 : kp = k
    · subst h1
      simp
    · rw [if_neg h1]
      simp only [List.map_cons, ih, List.mem_cons]
      by_cases h2 : k ∈ rest.map Prod.fst
      · rw [if_pos h2, if_pos (Or.inr h2)]
      · rw [if_neg h2, if_neg (by rintro (h | h); exact h1 h.symm; exact h2 h)]
        rfl

/-- The grouping loop of `detect_recurring_payments`, lookup view: starting
from any accumulator, the bucket at key `k` ends up holding the old content
followed by exactly the transactions of the suffix that group under `k`. -/
theorem build_groups_fold_lookup (k : List Char × ℚ) :
    ∀ (txs : List MonoStatementTx)
      (gs : List ((List Char × ℚ) × List MonoStatementTx)),
      (txs.foldl build_groups_step gs).lookup k =
        match gs.lookup k with
        | some l => some (l ++ txs.filter (grouped_as k))
        | none =>
          if txs.filter (grouped_as k) = [] then none
          else some (txs.filter (grouped_as k)) := by
  intro txs
  induction txs with
  | nil =>
    intro gs
    simp only [List.foldl_nil, List.filter_nil]
    cases gs.lookup k with
    | none => rfl
    | some l => simp
  | cons tx rest ih =>
    intro gs
    rw [List.foldl_cons, List.filter_cons]
    by_cases h1 : tx.amount < 0
    · by_cases h2 : (0 : ℚ) < (tx.amount.natAbs : ℚ) / 100
      · have hstep : build_groups_step gs tx =
            add_to_group gs (py_strip tx.description.toList,
              (tx.amount.natAbs : ℚ) / 100) tx := by
          simp [build_groups_step, h1, h2]
        rw [hstep]
        by_cases h3 : k = (py_strip tx.description.toList, (tx.amount.natAbs : ℚ) / 100)
        · have hg : grouped_as k tx = true := by
            simp only [grouped_as, Bool.and_eq_true, decide_eq_true_eq]
            exact ⟨⟨h1, h2⟩, h3.symm⟩
          rw [if_pos hg, ih]
          rw [lookup_add_to_group, if_pos h3]
          cases hgs : gs.lookup k with
          | none => simp [List.cons_ne_nil]
          | some l => simp
        · have hg : grouped_as k tx = false := by
            simp only [grouped_as, Bool.and_eq_false_iff]
            right
            simp only [decide_eq_false_iff_not]
            exact fun h => h3 h.symm
          rw [if_neg (by simp [hg]), ih]
          rw [lookup_add_to_group, if_neg h3]
      · have hstep : build_groups_step gs tx = gs := by
          simp [build_groups_step, h1, h2]
        have hg : grouped_as k tx = false := by
          simp only [grouped_as, Bool.and_eq_false_iff]
          left
          simp [Bool.and_eq_false_iff, h2]
        rw [hstep, if_neg (by simp [hg]), ih]
    · have hstep : build_groups_step gs tx = gs := by
        simp [build_groups_step, h1]
      have hg : grouped_as k tx = false := by
        simp only [grouped_as, Bool.and_eq_false_iff]
        left
        simp [Bool.and_eq_false_iff, h1]
      rw [hstep, if_neg (by simp [hg]), ih]

/-- One grouping step keeps the bucket keys duplicate-free. -/
theorem build_groups_step_keys_nodup
    (gs : List ((List Char × ℚ) × List MonoStatementTx)) (tx : MonoStatementTx)
    (h : (gs.map Prod.fst).Nodup) :
    ((build_groups_step gs tx).map Prod.fst).Nodup := by
  by_cases h1 : tx.amount < 0
  · by_cases h2 : (0 : ℚ) < ((tx.amount.natAbs : ℚ) / 100)
    · have hstep : build_groups_step gs tx =
          add_to_group gs (py_strip tx.description.toList,
            (tx.amount.natAbs : ℚ) / 100) tx := by
        simp [build_groups_step, h1, h2]
      rw [hstep, keys_add_to_group]
      by_cases hm : (py_strip tx.description.toList,
          (tx.amount.natAbs : ℚ) / 100) ∈ gs.map Prod.fst
      · rw [if_pos hm]; exact h
      · rw [if_neg hm]
        simpa using List.Nodup.append h (List.nodup_singleton _)
          (by simpa [List.disjoint_singleton] using hm)
    · simpa [build_groups_step, h1, h2] using h
  · simpa [build_groups_step, h1] using h

/-- The `defaultdict(list)` of the grouping pass never holds a key twice. -/
theorem build_groups_keys_nodup (txs : List MonoStatementTx) :
    ((build_groups txs).map Prod.fst).Nodup := by
  suffices h : ∀ (l : List MonoStatementTx)
      (gs : List ((List Char × ℚ) × List MonoStatementTx)),
      (gs.map Prod.fst).Nodup →
      ((l.foldl build_groups_step gs).map Prod.fst).Nodup by
    exact h txs [] (by simp)
  intro l
  induction l with
  | nil => intro gs hgs; simpa using hgs
  | cons tx rest ih =>
    intro gs hgs
    rw [List.foldl_cons]
    exact ih _ (build_groups_step_keys_nodup gs tx hgs)

/-- A successful `List.lookup` exhibits a member of the association list. -/
theorem lookup_some_mem {α β : Type} [BEq α] [LawfulBEq α]
    (l : List (α × β)) (k : α) (v : β) (h : l.lookup k = some v) : (k, v) ∈ l := by
  induction l with
  | nil => simp [List.lookup] at h
  | cons p rest ih =>
    rcases p with ⟨kp, vp⟩
    by_cases hk : k = kp
    · subst hk
      simp only [List.lookup, beq_self_eq_true, Option.some.injEq] at h
      subst h
      exact List.mem_cons_self _ _
    · simp only [List.lookup, beq_eq_false_iff_ne.mpr hk] at h
      exact List.mem_cons_of_mem _ (ih h)

/-- On an association list with duplicate-free keys, membership determines
the `List.lookup` result. -/
theorem mem_lookup_of_keys_nodup {α β : Type} [BEq α] [LawfulBEq α]
    (l : List (α × β)) (k : α) (v : β) (hnd : (l.map Prod.fst).Nodup)
    (h : (k, v) ∈ l) : l.lookup k = some v := by
  induction l with
  | nil => simp at h
  | cons p rest ih =>
    rcases p with ⟨kp, vp⟩
    simp only [List.map_cons, List.nodup_cons] at hnd
    rcases List.mem_cons.mp h with h | h
    · rcases Prod.mk.injEq .. ▸ h with ⟨hk, hv⟩
      subst hk; subst hv
      simp [List.lookup]
    · have hk : k ≠ kp := by
        intro he
        have : k ∈ rest.map Prod.fst := List.mem_map_of_mem Prod.fst h
        exact hnd.1 (he ▸ this)
      simp only [List.lookup, beq_eq_false_iff_ne.mpr hk]
      exact ih hnd.2 h

/-- Every bucket produced by the grouping pass holds exactly the
transactions of the input that group under its key. -/
theorem build_groups_bucket (txs : List MonoStatementTx)
    (p : (List Char × ℚ) × List MonoStatementTx) (hp : p ∈ build_groups txs) :
    p.2 = txs.filter (grouped_as p.1) := by
  have hl : (build_groups txs).lookup p.1 = some p.2 :=
    mem_lookup_of_keys_nodup _ _ _ (build_groups_keys_nodup txs)
      (by rw [Prod.mk.eta]; exact hp)
  have hl' := build_groups_fold_lookup p.1 txs []
  simp only [List.lookup] at hl'
  rw [build_groups] at hl
  rw [hl'] at hl
  by_cases hf : txs.filter (grouped_as p.1) = []
  · rw [if_pos hf] at hl; exact absurd hl (by simp)
  · rw [if_neg hf] at hl
    exact (Option.some.injEq .. ▸ hl).symm

/-- Conversely, every key with at least one grouped transaction owns a
bucket holding exactly those transactions. -/
theorem build_groups_complete (txs : List MonoStatementTx) (k : List Char × ℚ)
    (hf : txs.filter (grouped_as k) ≠ []) :
    (k, txs.filter (grouped_as k)) ∈ build_groups txs := by
  have hl' := build_groups_fold_lookup k txs []
  simp only [List.lookup] at hl'
  rw [if_neg hf] at hl'
  exact lookup_some_mem _ _ _ hl'

/-- The `recurring.append(...)` loop equals filter-then-map over the
groups. -/
theorem recurring_fold_eq :
    ∀ (gs : List ((List Char × ℚ) × List MonoStatementTx))
      (acc : List RecurringEntry),
      gs.foldl
        (fun acc p => if 1 < p.2.length then acc ++ [mk_recurring_entry p] else acc)
        acc =
      acc ++ (gs.filter fun p => decide (1 < p.2.length)).map mk_recurring_entry := by
  intro gs
  induction gs with
  | nil => intro acc; simp
  | cons p rest ih =>
    intro acc
    rw [List.foldl_cons, List.filter_cons]
    by_cases h : 1 < p.2.length
    · rw [if_pos h, ih, if_pos (by simpa using h)]
      simp
    · rw [if_neg h, ih, if_neg (by simpa using h)]

/-- `detect_recurring_payments` as a filter-map-sort pipeline over the
grouping pass. -/
theorem detect_recurring_eq (txs : List MonoStatementTx) :
    detect_recurring_payments txs =
      (((build_groups txs).filter fun p => decide (1 < p.2.length)).map
        mk_recurring_entry).insertionSort count_desc := by
  have h := recurring_fold_eq (build_groups txs) []
  simp only [List.nil_append] at h
  show (List.foldl
      (fun acc p => if 1 < p.2.length then acc ++ [mk_recurring_entry p] else acc)
      [] (build_groups txs)).insertionSort count_desc = _
  rw [h]

unseal Rat.add Rat.mul Rat.inv Rat.sub in
/-- C5 (amended, corrected): recurring detection, for every transaction
list: the empty list yields an empty output; the output is sorted by
occurrence count descending and is a permutation of the entries built from
the groups with more than one member (so ties keep the deterministic
first-occurrence group order); every output entry has count ≥ 2 — a pair
occurring once never appears; every output entry is built by
`mk_recurring_entry` from exactly the expense transactions (`amount < 0`)
whose (stripped description, |amount|/100) pair equals its key, carrying
that description, absolute amount, and the group size as its count (with
`avg_interval_days` the mean of consecutive gaps of the ascending-sorted
occurrence times divided by 86400 and then rounded to one decimal place,
half to even, and `last_transaction` the latest occurrence time); every
pair with at least 2 grouped transactions produces such an entry; and
three Netflix charges of −9.99 at t, t+30d, t+60d yield exactly one entry
with count 3 and avg_interval_days = 30.0 (the description stripped of
surrounding whitespace). -/
theorem recurring_payment_detection (txs : List MonoStatementTx) :
    detect_recurring_payments [] = [] ∧
    (detect_recurring_payments txs).Sorted count_desc ∧
    (detect_recurring_payments txs).Perm
      (((build_groups txs).filter fun p => decide (1 < p.2.length)).map
        mk_recurring_entry) ∧
    (∀ e ∈ detect_recurring_payments txs, 2 ≤ e.count) ∧
    (∀ e ∈ detect_recurring_payments txs, ∃ d a,
        e = mk_recurring_entry ((d, a), txs.filter (grouped_as (d, a))) ∧
        e.description = d.asString ∧ e.amount = a ∧
        e.count = (txs.filter (grouped_as (d, a))).length) ∧
    (∀ d a, 2 ≤ (txs.filter (grouped_as (d, a))).length →
        ∃ e ∈ detect_recurring_payments txs,
          e = mk_recurring_entry ((d, a), txs.filter (grouped_as (d, a)))) ∧
    detect_recurring_payments
        [⟨0, " Netflix ", -999, 0⟩, ⟨2592000, "Netflix", -999, 0⟩,
         ⟨5184000, "Netflix", -999, 0⟩] =
      [⟨"Netflix", 999 / 100, 3, 30, 5184000⟩] := by
  refine ⟨rfl, ?_, ?_, ?_, ?_, ?_, by decide⟩
  · rw [detect_recurring_eq]
    exact List.sorted_insertionSort count_desc _
  · rw [detect_recurring_eq]
    exact List.perm_insertionSort count_desc _
  · intro e he
    rw [detect_recurring_eq] at he
    have he' := (List.perm_insertionSort count_desc _).mem_iff.mp he
    rcases List.mem_map.mp he' with ⟨p, hp, rfl⟩
    rcases List.mem_filter.mp hp with ⟨_, hlen⟩
    have : 1 < p.2.length := of_decide_eq_true hlen
    simpa [mk_recurring_entry] using this
  · intro e he
    rw [detect_recurring_eq] at he
    have he' := (List.perm_insertionSort count_desc _).mem_iff.mp he
    rcases List.mem_map.mp he' with ⟨p, hp, rfl⟩
    rcases List.mem_filter.mp hp with ⟨hmem, _⟩
    have hbucket := build_groups_bucket txs p hmem
    refine ⟨p.1.1, p.1.2, ?_, rfl, rfl, ?_⟩
    · rw [Prod.mk.eta, ← hbucket, Prod.mk.eta]
    · rw [Prod.mk.eta, ← hbucket]
      rfl
  · intro d a hlen
    have hne : txs.filter (grouped_as (d, a)) ≠ [] := by
      intro h
      rw [h] at hlen
      simp at hlen
    have hmem := build_groups_complete txs (d, a) hne
    have hfil : ((d, a), txs.filter (grouped_as (d, a))) ∈
        (build_groups txs).filter fun p => decide (1 < p.2.length) := by
      refine List.mem_filter.mpr ⟨hmem, ?_⟩
      exact decide_eq_true (show 1 <
        (txs.filter (grouped_as (d, a))).length by omega)
    refine ⟨mk_recurring_entry ((d, a), txs.filter (grouped_as (d, a))), ?_, rfl⟩
    rw [detect_recurring_eq]
    exact (List.perm_insertionSort count_desc _).mem_iff.mpr
      (List.mem_map_of_mem mk_recurring_entry hfil)

unseal Rat.add Rat.mul Rat.inv Rat.sub in
/-- C5 (counterexample): two -1.00 charges 3 hours apart produce an entry
whose `avg_interval_days` is 0.1, the one-decimal half-even rounding of
the exact mean gap 10800 / 86400 = 0.125 — the source applies
`round(..., 1)`, so the field does not equal the exact mean of the gaps
divided by 86400 as claimed. -/
theorem recurring_payment_detection_cex :
    detect_recurring_payments [⟨0, "X", -100, 0⟩, ⟨10800, "X", -100, 0⟩] =
      [⟨"X", 1, 2, 1 / 10, 10800⟩] ∧
    ((1 : ℚ) / 10) ≠ 10800 / 86400 := by
  constructor
  · decide
  · decide

unseal Rat.add Rat.mul Rat.inv Rat.sub in
/-- C5 witness: the completeness clause applied to a concrete pair of
identical charges. -/
theorem recurring_payment_detection_witness :
    2 ≤ (([⟨0, "X", -100, 0⟩, ⟨10800, "X", -100, 0⟩] :
        List MonoStatementTx).filter (grouped_as ("X".toList, 1))).length ∧
    ∃ e ∈ detect_recurring_payments
        [⟨0, "X", -100, 0⟩, ⟨10800, "X", -100, 0⟩],
      e = mk_recurring_entry (("X".toList, 1),
        ([⟨0, "X", -100, 0⟩, ⟨10800, "X", -100, 0⟩] :
          List MonoStatementTx).filter (grouped_as ("X".toList, 1))) :=
  ⟨by decide,
   (recurring_payment_detection
      [⟨0, "X", -100, 0⟩, ⟨10800, "X", -100, 0⟩]).2.2.2.2.2.1
      "X".toList 1 (by decide)⟩
